import Mathlib

/-!
Verification of the tideflow markdown-to-PDF core.

Shallow embedding of the markdown preprocessor (`src-tauri/src/preprocessor.rs`)
and the TikZ diagram compile cache (`src-tauri/src/tikz.rs`), with theorems
settling the frozen specification claims.

Strings are modelled as `List Char`; Rust byte offsets are modelled as
positions into the character sequence (pulldown-cmark ranges always fall on
character boundaries, so the byte-offset/char-offset correspondence is a
monotone bijection on the positions that occur; byte-level quantities are
modelled explicitly via UTF-8 byte lengths where the code is byte-sensitive).
The external markdown parser (pulldown-cmark), the external processes
(Tectonic, Pdfium) and the external hash library are dependencies, not code of
this repository: the parser's event stream and the process outcomes are
parameters of the embedding, while SHA-256 is implemented concretely per
FIPS 180-4 as the `sha2` crate computes it.
-/

/-- Rust `escape_typst_string` on one character (the match arms of
`preprocessor.rs:212-225`): backslash, double quote, newline, carriage return
and tab become two-character escape sequences; everything else passes through. -/
def escape_typst_char (c : Char) : List Char :=
  if c = '\\' then ['\\', '\\']
  else if c = '"' then ['\\', '"']
  else if c = '\n' then ['\\', 'n']
  else if c = '\r' then ['\\', 'r']
  else if c = '\t' then ['\\', 't']
  else [c]

/-- Rust `escape_typst_string` (`preprocessor.rs:212-225`): escape each character in
order and concatenate. -/
def escape_typst_string : List Char → List Char
  | [] => []
  | c :: rest => escape_typst_char c ++ escape_typst_string rest

/-- One unescape step for the character following a backslash
(`preprocessor.rs:332-341`): the six recognised escapes collapse to one
character; any other escaped character keeps its backslash. -/
def unescape_step (next : Char) : List Char :=
  if next = 'n' then ['\n']
  else if next = 'r' then ['\r']
  else if next = 't' then ['\t']
  else if next = '\\' then ['\\']
  else if next = '"' then ['"']
  else if next = '\'' then ['\'']
  else ['\\', next]

/-- Rust `unescape_quoted` (`preprocessor.rs:326-352`): a backslash consumes the
following character via `unescape_step`; a trailing lone backslash is kept;
other characters pass through. -/
def unescape_quoted : List Char → List Char
  | [] => []
  | c :: rest =>
    if c = '\\' then
      match rest with
      | [] => ['\\']
      | next :: rest2 => unescape_step next ++ unescape_quoted rest2
    else c :: unescape_quoted rest

/-- C10. The quoted-value unescaping inverts the directive-string escaping:
for every string `s`, `unescape_quoted (escape_typst_string s) = s`. -/
theorem escape_unescape_round_trip (s : List Char) :
    unescape_quoted (escape_typst_string s) = s := by
  induction s with
  | nil => rfl
  | cons c rest ih =>
    by_cases h1 : c = '\\'
    · subst h1; simp [escape_typst_string, escape_typst_char, unescape_quoted, unescape_step, ih]
    · by_cases h2 : c = '"'
      · subst h2; simp [escape_typst_string, escape_typst_char, unescape_quoted, unescape_step, ih]
      · by_cases h3 : c = '\n'
        · subst h3
          simp [escape_typst_string, escape_typst_char, unescape_quoted, unescape_step, ih]
        · by_cases h4 : c = '\r'
          · subst h4
            simp [escape_typst_string, escape_typst_char, unescape_quoted, unescape_step, ih]
          · by_cases h5 : c = '\t'
            · subst h5
              simp [escape_typst_string, escape_typst_char, unescape_quoted, unescape_step, ih]
            · simp only [escape_typst_string, escape_typst_char, if_neg h1, if_neg h2,
                if_neg h3, if_neg h4, if_neg h5, List.singleton_append]
              rw [unescape_quoted.eq_def]
              simp only [if_neg h1, ih]

/-- UTF-8 byte length of one character (what Rust's `String::len` counts per
`char`). -/
def utf8CharLen (c : Char) : Nat :=
  if c.toNat < 128 then 1
  else if c.toNat < 2048 then 2
  else if c.toNat < 65536 then 3
  else 4

/-- UTF-8 byte length of a string (Rust `str::len`). -/
def utf8Len (s : List Char) : Nat := (s.map utf8CharLen).sum

/-- Whitespace set used by Rust's `str::trim` (Unicode White_Space; the ASCII
cases, which are the ones the inputs here exercise, agree with
`Char.isWhitespace`). -/
def rustIsWhitespace (c : Char) : Bool := c.isWhitespace

/-- Rust `str::trim`: drop whitespace from both ends. -/
def rustTrim (s : List Char) : List Char :=
  ((s.dropWhile rustIsWhitespace).reverse.dropWhile rustIsWhitespace).reverse

/-- Rust `String::truncate n`: a no-op when `n` is at least the byte length;
otherwise cut at byte position `n`, PANICKING (modelled as `none`) when `n` is
not a character boundary. -/
def rustTruncate (s : List Char) (n : Nat) : Option (List Char) :=
  if utf8Len s ≤ n then some s else truncAux s n
where
  truncAux : List Char → Nat → Option (List Char)
    | _, 0 => some []
    | [], _ + 1 => none
    | c :: rest, n + 1 =>
      if utf8CharLen c ≤ n + 1 then
        (truncAux rest (n + 1 - utf8CharLen c)).map (c :: ·)
      else none

/-- Rust `truncate_message` (`tikz.rs:316-324`): trim, replace newlines with
spaces, and if the result exceeds 240 BYTES, `String::truncate(240)` it and
append an ellipsis. `none` models the panic `String::truncate` raises when
byte 240 falls inside a multi-byte character. -/
def truncate_message (message : List Char) : Option (List Char) :=
  let result := (rustTrim message).map (fun c => if c = '\n' then ' ' else c)
  if utf8Len result > 240 then
    match rustTruncate result 240 with
    | some r => some (r ++ ['…'])
    | none => none
  else some result

set_option maxRecDepth 4000 in
/-- C9 (code bug). At the concrete message consisting of 239 `'a'` characters
followed by `'é'` (241 UTF-8 bytes), `truncate_message` panics: byte 240 is
not a character boundary, so `String::truncate(240)` aborts instead of
yielding a capped preview. -/
theorem truncate_message_panics :
    truncate_message (List.replicate 239 'a' ++ ['é']) = none := by decide

/-! ## SHA-256 (the `sha2` crate's digest, per FIPS 180-4)

`cache_key` (`tikz.rs:239-246`) feeds bytes into `sha2::Sha256` and
hex-encodes the result. The hash is implemented here concretely; its round
constants are derived, as in the standard, from the fractional parts of the
cube roots (and, for the initial state, square roots) of the first primes, so
no magic table is transcribed. -/

/-- Bisection step for the integer cube root; `fuel` strictly exceeds the
number of halvings needed, so the search always terminates at the invariant
`lo ^ 3 ≤ n < hi ^ 3`. -/
def icbrtFuel : Nat → Nat → Nat → Nat → Nat
  | 0, _, lo, _ => lo
  | fuel + 1, n, lo, hi =>
    if hi ≤ lo + 1 then lo
    else
      let mid := (lo + hi) / 2
      if mid ^ 3 ≤ n then icbrtFuel fuel n mid hi else icbrtFuel fuel n lo mid

/-- Integer cube root: the largest `r` with `r ^ 3 ≤ n`. -/
def icbrt (n : Nat) : Nat := icbrtFuel (n + 2) n 0 (n + 1)

/-- The first 64 primes, sources of the SHA-256 constants. -/
def sha256Primes : List Nat :=
  [2, 3, 5, 7, 11, 13, 17, 19, 23, 29, 31, 37, 41, 43, 47, 53,
   59, 61, 67, 71, 73, 79, 83, 89, 97, 101, 103, 107, 109, 113, 127, 131,
   137, 139, 149, 151, 157, 163, 167, 173, 179, 181, 191, 193, 197, 199, 211, 223,
   227, 229, 233, 239, 241, 251, 257, 263, 269, 271, 277, 281, 283, 293, 307, 311]

/-- SHA-256 round constants: first 32 bits of the fractional parts of the cube
roots of the first 64 primes. -/
def sha256K : List Nat := sha256Primes.map (fun p => icbrt (p * 2 ^ 96) % 2 ^ 32)

/-- Truncation to a 32-bit machine word. -/
def w32 (x : Nat) : Nat := x % 4294967296

/-- Rotate right on 32-bit words. -/
def rotr32 (x n : Nat) : Nat := w32 (x / 2 ^ n + x % 2 ^ n * 2 ^ (32 - n))

/-- Logical shift right on 32-bit words. -/
def shr32 (x n : Nat) : Nat := x / 2 ^ n

/-- Bitwise complement on 32-bit words. -/
def not32 (x : Nat) : Nat := 4294967295 - x % 4294967296

def bigSigma0 (x : Nat) : Nat := Nat.xor (Nat.xor (rotr32 x 2) (rotr32 x 13)) (rotr32 x 22)

def bigSigma1 (x : Nat) : Nat := Nat.xor (Nat.xor (rotr32 x 6) (rotr32 x 11)) (rotr32 x 25)

def smallSigma0 (x : Nat) : Nat := Nat.xor (Nat.xor (rotr32 x 7) (rotr32 x 18)) (shr32 x 3)

def smallSigma1 (x : Nat) : Nat := Nat.xor (Nat.xor (rotr32 x 17) (rotr32 x 19)) (shr32 x 10)

def chFn (x y z : Nat) : Nat := Nat.xor (Nat.land x y) (Nat.land (not32 x) z)

def majFn (x y z : Nat) : Nat := Nat.xor (Nat.xor (Nat.land x y) (Nat.land x z)) (Nat.land y z)

/-- Big-endian 8-byte encoding. -/
def be64 (n : Nat) : List Nat :=
  [n / 2 ^ 56 % 256, n / 2 ^ 48 % 256, n / 2 ^ 40 % 256, n / 2 ^ 32 % 256,
   n / 2 ^ 24 % 256, n / 2 ^ 16 % 256, n / 2 ^ 8 % 256, n % 256]

/-- Big-endian 4-byte encoding. -/
def be32 (n : Nat) : List Nat := [n / 2 ^ 24 % 256, n / 2 ^ 16 % 256, n / 2 ^ 8 % 256, n % 256]

/-- SHA-256 padding: a `0x80` byte, zeros to 56 mod 64, then the bit length. -/
def sha256Pad (msg : List Nat) : List Nat :=
  let L := msg.length
  msg ++ [128] ++ List.replicate ((120 - (L + 1) % 64) % 64) 0 ++ be64 (8 * L)

/-- Group bytes into big-endian 32-bit words. -/
def bytesToWords : List Nat → List Nat
  | a :: b :: c :: d :: rest => (((a * 256 + b) * 256 + c) * 256 + d) :: bytesToWords rest
  | _ => []

/-- Split a byte list into 64-byte blocks. -/
def chunks64 (l : List Nat) : List (List Nat) :=
  if h : l = [] then [] else l.take 64 :: chunks64 (l.drop 64)
termination_by l.length
decreasing_by
  simp only [List.length_drop]
  have : 0 < l.length := List.length_pos.mpr h
  omega

/-- Extend the 16-word block to the 64-word message schedule. -/
def extendSchedule (ws : List Nat) : List Nat :=
  if h : 64 ≤ ws.length then ws
  else
    extendSchedule (ws ++
      [w32 (smallSigma1 (ws.getD (ws.length - 2) 0) + ws.getD (ws.length - 7) 0 +
        smallSigma0 (ws.getD (ws.length - 15) 0) + ws.getD (ws.length - 16) 0)])
termination_by 64 - ws.length
decreasing_by simp only [List.length_append, List.length_cons, List.length_nil]; omega

/-- The eight 32-bit working variables of the compression function. -/
structure Sha256State where
  a : Nat
  b : Nat
  c : Nat
  d : Nat
  e : Nat
  f : Nat
  g : Nat
  hh : Nat

/-- SHA-256 initial state: first 32 bits of the fractional parts of the square
roots of the first 8 primes. -/
def sha256Init : Sha256State :=
  match (sha256Primes.take 8).map (fun p => Nat.sqrt (p * 2 ^ 64) % 2 ^ 32) with
  | [a, b, c, d, e, f, g, hh] => ⟨a, b, c, d, e, f, g, hh⟩
  | _ => ⟨0, 0, 0, 0, 0, 0, 0, 0⟩

/-- One compression round. -/
def sha256Round (st : Sha256State) (k w : Nat) : Sha256State :=
  let t1 := w32 (st.hh + bigSigma1 st.e + chFn st.e st.f st.g + k + w)
  let t2 := w32 (bigSigma0 st.a + majFn st.a st.b st.c)
  ⟨w32 (t1 + t2), st.a, st.b, st.c, w32 (st.d + t1), st.e, st.f, st.g⟩

/-- Compress one 64-byte block into the state. -/
def compressBlock (st : Sha256State) (block : List Nat) : Sha256State :=
  let ws := extendSchedule (bytesToWords block)
  let r := (sha256K.zip ws).foldl (fun s kw => sha256Round s kw.1 kw.2) st
  ⟨w32 (st.a + r.a), w32 (st.b + r.b), w32 (st.c + r.c), w32 (st.d + r.d),
   w32 (st.e + r.e), w32 (st.f + r.f), w32 (st.g + r.g), w32 (st.hh + r.hh)⟩

/-- SHA-256 of a byte list, as 32 digest bytes. -/
def sha256 (msg : List Nat) : List Nat :=
  let fin := (chunks64 (sha256Pad msg)).foldl compressBlock sha256Init
  be32 fin.a ++ be32 fin.b ++ be32 fin.c ++ be32 fin.d ++
    be32 fin.e ++ be32 fin.f ++ be32 fin.g ++ be32 fin.hh

/-- Lower-case hex digit. -/
def hexDigitChar (n : Nat) : Char := if n < 10 then Char.ofNat (48 + n) else Char.ofNat (87 + n)

/-- Rust crate function `hex::encode`: two lower-case hex digits per byte. -/
def hexEncode (bytes : List Nat) : List Char :=
  bytes.foldr (fun b acc => hexDigitChar (b / 16) :: hexDigitChar (b % 16) :: acc) []

/-- UTF-8 encoding of one character (Rust `str::as_bytes` per char). -/
def utf8EncodeChar (c : Char) : List Nat :=
  let n := c.toNat
  if n < 128 then [n]
  else if n < 2048 then [192 + n / 64, 128 + n % 64]
  else if n < 65536 then [224 + n / 4096, 128 + n / 64 % 64, 128 + n % 64]
  else [240 + n / 262144, 128 + n / 4096 % 64, 128 + n / 64 % 64, 128 + n % 64]

/-- UTF-8 bytes of a string (Rust `str::as_bytes`). -/
def utf8Encode (s : List Char) : List Nat := s.flatMap utf8EncodeChar

/-- Modelled from the spec: the struct `TikzBlockMeta` is referenced by
`tikz.rs` (`use crate::preprocessor::TikzBlockMeta`) but its declaration is
not among the provided sources. Its fields are the spec's DiagramBlock
{id, rawSource, options (scale, preamble, format), requestedExtension} under
the field names `tikz.rs` uses: `id`, `diagram`, `preamble`,
`asset_extension`, `asset_path`. -/
structure TikzBlockMeta where
  id : List Char
  diagram : List Char
  scale : Option (List Char)
  preamble : Option (List Char)
  format : Option (List Char)
  asset_extension : List Char
  asset_path : List Char

/-- The byte stream `cache_key` feeds into the hasher (`tikz.rs:240-244`):
the diagram source bytes, then the preamble bytes when present. The format is
NOT hashed. -/
def cacheKeyInput (block : TikzBlockMeta) : List Nat :=
  utf8Encode block.diagram ++
    (match block.preamble with
     | some p => utf8Encode p
     | none => [])

/-- Rust `cache_key` (`tikz.rs:239-246`): hex-encoded SHA-256 of the hasher
input. -/
def cache_key (block : TikzBlockMeta) : List Char := hexEncode (sha256 (cacheKeyInput block))

/-- A concrete block requesting the `png` format. -/
def blockPngC1 : TikzBlockMeta :=
  { id := ("b1".data), diagram := ("\\draw (0,0) -- (1,1);".data), scale := none,
    preamble := none, format := some ("png".data), asset_extension := ("png".data),
    asset_path := ("tikz/b1.png".data) }

/-- The same source and preamble, requesting the `svg` format. -/
def blockSvgC1 : TikzBlockMeta :=
  { id := ("b1".data), diagram := ("\\draw (0,0) -- (1,1);".data), scale := none,
    preamble := none, format := some ("svg".data), asset_extension := ("svg".data),
    asset_path := ("tikz/b1.svg".data) }

/-- C1 counterexample. Two blocks with identical source and preamble but
formats `png` and `svg` get the SAME cache key: `cache_key` hashes only the
diagram and preamble bytes, never the format string, refuting the claimed
`key(src, preamble, "png") != key(src, preamble, "svg")`. -/
theorem cache_key_png_svg_eq : cache_key blockPngC1 = cache_key blockSvgC1 :=
  congrArg (fun l => hexEncode (sha256 l))
    (rfl : cacheKeyInput blockPngC1 = cacheKeyInput blockSvgC1)

/-- C1 amended. The cache key is a deterministic digest over the block's raw
source bytes and its preamble bytes when present; the format string is not
part of the digest, so any two blocks agreeing on source and preamble —
including ones whose formats differ — always share a key. -/
theorem cache_key_deterministic (b1 b2 : TikzBlockMeta)
    (hd : b1.diagram = b2.diagram) (hp : b1.preamble = b2.preamble) :
    cache_key b1 = cache_key b2 := by
  unfold cache_key cacheKeyInput
  rw [hd, hp]

/-- Witness for `cache_key_deterministic` at concrete blocks whose formats
differ. -/
theorem cache_key_deterministic_witness :
    cache_key
        { id := ("w".data), diagram := ("x".data), scale := none, preamble := some ("p".data),
          format := some ("png".data), asset_extension := ("png".data),
          asset_path := ("a".data) } =
      cache_key
        { id := ("w".data), diagram := ("x".data), scale := none, preamble := some ("p".data),
          format := some ("svg".data), asset_extension := ("svg".data),
          asset_path := ("a".data) } :=
  cache_key_deterministic _ _ rfl rfl

/-! ## Fence option parsing (`preprocessor.rs:127-324`) -/

/-- The punctuation set stripped around the fence language and option keys
(`preprocessor.rs:140,157`). -/
def isFencePunct (c : Char) : Bool :=
  c = ',' || c = '{' || c = '}' || c = '[' || c = ']' || c = '(' || c = ')' || c = ';'

/-- Rust `str::trim_matches` with predicate `p`: strip matching characters
from both ends. -/
def trimMatches (p : Char → Bool) (s : List Char) : List Char :=
  ((s.dropWhile p).reverse.dropWhile p).reverse

/-- Rust `char::to_ascii_lowercase`. -/
def toAsciiLower (c : Char) : Char :=
  if 'A' ≤ c && c ≤ 'Z' then Char.ofNat (c.toNat + 32) else c

/-- Rust `str::to_ascii_lowercase`. -/
def lowerStr (s : List Char) : List Char := s.map toAsciiLower

/-- Rust `str::split_once('=')`: the text before and after the first `'='`,
or `none` when absent. -/
def splitOnceEq : List Char → Option (List Char × List Char)
  | [] => none
  | c :: rest =>
    if c = '=' then some ([], rest)
    else (splitOnceEq rest).map (fun p => (c :: p.1, p.2))

/-- The tokenizer loop of `tokenize_fence_info` (`preprocessor.rs:258-307`):
quotes toggle `inQ`, a backslash consumes the next character verbatim,
whitespace/comma/semicolon outside quotes flush the current token (trimmed),
everything else accumulates. -/
def tokenizeLoop : List Char → List Char → Bool → Char → List (List Char) → List (List Char)
  | [], current, _, _, tokens =>
    if current = [] then tokens else tokens ++ [rustTrim current]
  | ch :: rest, current, inQ, qc, tokens =>
    if ch = '\'' || ch = '"' then
      if inQ then
        if ch = qc then tokenizeLoop rest (current ++ [ch]) false (Char.ofNat 0) tokens
        else tokenizeLoop rest (current ++ [ch]) true qc tokens
      else tokenizeLoop rest (current ++ [ch]) true ch tokens
    else if ch = '\\' then
      match rest with
      | [] =>
        -- exhausted input right after the backslash: the loop ends on the
        -- next iteration and flushes `current ++ [ch]`, which is nonempty
        tokens ++ [rustTrim (current ++ [ch])]
      | nx :: rest2 => tokenizeLoop rest2 (current ++ [ch, nx]) inQ qc tokens
    else if ch.isWhitespace && !inQ then
      if current = [] then tokenizeLoop rest [] inQ qc tokens
      else tokenizeLoop rest [] inQ qc (tokens ++ [rustTrim current])
    else if (ch = ',' || ch = ';') && !inQ then
      if current = [] then tokenizeLoop rest [] inQ qc tokens
      else tokenizeLoop rest [] inQ qc (tokens ++ [rustTrim current])
    else tokenizeLoop rest (current ++ [ch]) inQ qc tokens

/-- Rust `tokenize_fence_info` (`preprocessor.rs:258-307`). -/
def tokenize_fence_info (input : List Char) : List (List Char) :=
  tokenizeLoop input [] false (Char.ofNat 0) []

/-- Rust `normalize_option_value` (`preprocessor.rs:309-324`): trim and strip
separator punctuation; a value wrapped in matching double or single quotes is
unquoted and unescaped; anything else is used verbatim. -/
def normalize_option_value (raw : List Char) : Option (List Char) :=
  let trimmed := trimMatches (fun c => c = ',' || c = ';') (rustTrim raw)
  if trimmed = [] then some []
  else if 2 ≤ trimmed.length && trimmed.head? = some '"' && trimmed.getLast? = some '"' then
    some (unescape_quoted ((trimmed.drop 1).dropLast))
  else if 2 ≤ trimmed.length && trimmed.head? = some '\'' && trimmed.getLast? = some '\'' then
    some (unescape_quoted ((trimmed.drop 1).dropLast))
  else some trimmed

/-- The three recognized fence options (`preprocessor.rs:113-118`). -/
structure TikzFenceOptions where
  scale : Option (List Char)
  preamble : Option (List Char)
  format : Option (List Char)

/-- The empty option set (`TikzFenceOptions::default()`). -/
def TikzFenceOptions.init : TikzFenceOptions := ⟨none, none, none⟩

/-- One iteration of the option loop of `parse_tikz_fence`
(`preprocessor.rs:148-180`): split the token at the first `'='`, normalize the
key, and store the value under `scale`/`preamble`/`format`; other keys are
dropped. -/
def applyFenceToken (opts : TikzFenceOptions) (token : List Char) : TikzFenceOptions :=
  let cleaned := rustTrim token
  if cleaned = [] then opts
  else
    match splitOnceEq cleaned with
    | none => opts
    | some (key, value) =>
      let key := lowerStr (trimMatches isFencePunct (rustTrim key))
      let normalized_value := normalize_option_value value
      if key = ("scale".data) then
        match normalized_value with
        | some v => { opts with scale := some v }
        | none => opts
      else if key = ("preamble".data) then
        match normalized_value with
        | some v => { opts with preamble := some v }
        | none => opts
      else if key = ("format".data) then
        match normalized_value with
        | some v => { opts with format := some v }
        | none => opts
      else opts

/-- Rust `parse_tikz_fence` (`preprocessor.rs:127-183`): tokenize the fence info
string; the first token, stripped of punctuation and lower-cased, must be
`tikz`, else the fence is ordinary code (`none`); the remaining tokens are
folded into the option set. -/
def parse_tikz_fence (info : List Char) : Option TikzFenceOptions :=
  let raw := rustTrim info
  if raw = [] then none
  else
    match tokenize_fence_info raw with
    | [] => none
    | language :: rest =>
      let normalized_lang := lowerStr (trimMatches isFencePunct language)
      if normalized_lang = ("tikz".data) then
        some (rest.foldl applyFenceToken TikzFenceOptions.init)
      else none

/-- Digit test used by the numeric-literal model. -/
def isAsciiDigit (c : Char) : Bool := '0' ≤ c && c ≤ '9'

/-- Models the composition of `str::parse::<f32>` and `format!("{}", number)`
(`preprocessor.rs:241-243`), both Rust library behaviour. Exact float
rounding is not reproduced: the model accepts plain decimal literals
(optional sign, digits, optional fractional part) — a subset of what
`parse::<f32>` accepts — and prints the normalized decimal. The theorems rely
only on (a) which inputs are treated as numeric and (b) the printed text
containing only digits, `'-'` and `'.'`, which holds of Rust's `Display` for
every finite float. -/
def f32SignSplit (s : List Char) : Bool × List Char :=
  match s with
  | '-' :: rest => (true, rest)
  | '+' :: rest => (false, rest)
  | _ => (false, s)

/-- The decimal printing half of the float model: leading zeros of the
integral part and trailing zeros of the fractional part are dropped, a zero
value loses its sign. -/
def f32Display (sign : Bool) (intPart fracPart : List Char) : List Char :=
  let intN := intPart.dropWhile (· = '0')
  let intShown := if intN = [] then ['0'] else intN
  let fracShown := (fracPart.reverse.dropWhile (· = '0')).reverse
  let isZero := intShown = ['0'] && fracShown = []
  (if sign && !isZero then ['-'] else []) ++ intShown ++
    (if fracShown = [] then [] else '.' :: fracShown)

/-- The parsing half of the float model: optional sign, digits, optional
fractional part, nothing else. -/
def f32ParseDisplay (s : List Char) : Option (List Char) :=
  let sd := f32SignSplit s
  let intPart := sd.2.takeWhile isAsciiDigit
  match sd.2.drop intPart.length with
  | [] => if intPart = [] then none else some (f32Display sd.1 intPart [])
  | '.' :: tl =>
    let fracPart := tl.takeWhile isAsciiDigit
    if tl.drop fracPart.length ≠ [] then none
    else if intPart = [] && fracPart = [] then none
    else some (f32Display sd.1 intPart fracPart)
  | _ => none

/-- Rust `format_scale_value` (`preprocessor.rs:227-256`): empty/`none`/`auto`
emit bare identifiers; a parseable float is re-formatted with trailing zeros
stripped (a trailing bare decimal point gets a forced `0`); anything else is
emitted as a quoted, escaped string. -/
def format_scale_value (raw : List Char) : List Char :=
  let trimmed := rustTrim raw
  if trimmed = [] then ("none".data)
  else if lowerStr trimmed = ("none".data) then ("none".data)
  else if lowerStr trimmed = ("auto".data) then ("auto".data)
  else
    match f32ParseDisplay trimmed with
    | some formatted =>
      if formatted.contains '.' then
        let stripped := (formatted.reverse.dropWhile (· = '0')).reverse
        if stripped.getLast? = some '.' then stripped ++ ['0'] else stripped
      else formatted
    | none => '"' :: (escape_typst_string trimmed ++ ['"'])

/-- Rust `Vec::join(", ")` on the argument list. -/
def joinArgs : List (List Char) → List Char
  | [] => []
  | [a] => a
  | a :: rest => a ++ (", ".data) ++ joinArgs rest

/-- The argument list assembled by `build_tikz_placeholder`
(`preprocessor.rs:186-203`): the escaped diagram source, then the options
actually present. -/
def placeholderArgs (content : List Char) (options : TikzFenceOptions) : List (List Char) :=
  let args := [("diagram: \"".data) ++ escape_typst_string content ++ ['"']]
  let args :=
    match options.scale with
    | some scale =>
      if rustTrim scale = [] then args
      else args ++ [("scale: ".data) ++ format_scale_value scale]
    | none => args
  let args :=
    match options.preamble with
    | some p => args ++ [("preamble: \"".data) ++ escape_typst_string p ++ ['"']]
    | none => args
  match options.format with
  | some f =>
    if f = [] then args else args ++ [("format: \"".data) ++ escape_typst_string f ++ ['"']]
  | none => args

/-- Rust `build_tikz_placeholder` (`preprocessor.rs:185-210`): a comment-wrapped
`#tikz_render` call with the arguments joined by `", "`. -/
def build_tikz_placeholder (content : List Char) (options : TikzFenceOptions) : List Char :=
  ("<!--raw-typst #tikz_render(".data) ++ joinArgs (placeholderArgs content options) ++
    (") -->\n".data)

/-! ## The markdown event stream

pulldown-cmark is an external library: its event stream over a given input is
a parameter of the embedding. Tags and events cover exactly the variants the
preprocessor matches on (`preprocessor.rs:68-96,421-504`); every inline tag is
`inlineTag`, every unmatched event is `otherEvent`. Each event carries its
source range `(start, stop)` as produced by `into_offset_iter`. -/

inductive MdTag where
  | paragraph
  | heading
  | blockQuote
  | codeBlockFenced (info : List Char)
  | codeBlockIndented
  | listTag
  | item
  | footnoteDefinition
  | table
  | tableHead
  | tableRow
  | tableCell
  | inlineTag

inductive MdEvent where
  | startTag (t : MdTag)
  | endTag (t : MdTag)
  | text (s : List Char)
  | code (s : List Char)
  | softBreak
  | hardBreak
  | otherEvent

/-- An event with its byte range, as `into_offset_iter` yields them. -/
abbrev EventR := MdEvent × Nat × Nat

/-- Rust `is_block_level` (`preprocessor.rs:489-504`). -/
def is_block_level : MdTag → Bool
  | .paragraph => true
  | .heading => true
  | .blockQuote => true
  | .codeBlockFenced _ => true
  | .codeBlockIndented => true
  | .listTag => true
  | .item => true
  | .footnoteDefinition => true
  | .table => true
  | .tableHead => true
  | .tableRow => true
  | .tableCell => true
  | .inlineTag => false

/-! ## Diagram extraction (`inject_tikz_blocks`, `preprocessor.rs:54-111`) -/

/-- The in-progress fence being accumulated (`preprocessor.rs:120-125`). -/
structure TikzBlockInProgress where
  start : Nat
  options : TikzFenceOptions
  content : List Char

/-- Scan state: collected `(start, stop, replacement)` edits plus the open
fence, if any. -/
structure TikzScanState where
  replacements : List (Nat × Nat × List Char)
  current : Option TikzBlockInProgress

/-- One iteration of the event loop of `inject_tikz_blocks`
(`preprocessor.rs:68-97`): a fenced-code start whose info parses as a tikz
fence opens a block; a fenced-code end closes it into an edit whose
replacement is the placeholder; text/code/breaks accumulate into the open
block; everything else is ignored. -/
def tikzScanStep (st : TikzScanState) (er : EventR) : TikzScanState :=
  match er.1 with
  | .startTag (.codeBlockFenced info) =>
    match parse_tikz_fence info with
    | some options => { st with current := some ⟨er.2.1, options, []⟩ }
    | none => st
  | .endTag (.codeBlockFenced _) =>
    match st.current with
    | some active =>
      { replacements :=
          st.replacements ++
            [(active.start, er.2.2, build_tikz_placeholder active.content active.options)],
        current := none }
    | none => st
  | .text s =>
    match st.current with
    | some active => { st with current := some { active with content := active.content ++ s } }
    | none => st
  | .code s =>
    match st.current with
    | some active => { st with current := some { active with content := active.content ++ s } }
    | none => st
  | .softBreak =>
    match st.current with
    | some active =>
      { st with current := some { active with content := active.content ++ ['\n'] } }
    | none => st
  | .hardBreak =>
    match st.current with
    | some active =>
      { st with current := some { active with content := active.content ++ ['\n'] } }
    | none => st
  | _ => st

/-- The edits collected by the scan, in event order. -/
def tikzReplacements (events : List EventR) : List (Nat × Nat × List Char) :=
  (events.foldl tikzScanStep ⟨[], none⟩).replacements

/-- Rust `String::replace_range (s..e, r)` on the model. -/
def replace_range (out : List Char) (s e : Nat) (r : List Char) : List Char :=
  out.take s ++ r ++ out.drop e

/-- One guarded edit application (`preprocessor.rs:104-108`). -/
def applyReplacement (out : List Char) (rep : Nat × Nat × List Char) : List Char :=
  if rep.1 ≤ rep.2.1 ∧ rep.2.1 ≤ out.length then replace_range out rep.1 rep.2.1 rep.2.2
  else out

/-- Rust `inject_tikz_blocks` (`preprocessor.rs:54-111`): collect all edits during
the scan, then apply them to the original text in reverse (descending start)
order; with no edits the input is returned unchanged. -/
def inject_tikz_blocks (markdown : List Char) (events : List EventR) : List Char :=
  let replacements := tikzReplacements events
  if replacements = [] then markdown
  else replacements.reverse.foldl applyReplacement markdown

/-! ## Anchor injection (`inject_anchors`, `preprocessor.rs:392-487`) -/

/-- Rust `AnchorMeta` (`preprocessor.rs:33-39`). -/
structure AnchorMeta where
  id : List Char
  offset : Nat
  line : Nat
  column : Nat
deriving DecidableEq

/-- Rust `PreprocessorOutput` (`preprocessor.rs:41-45`). -/
structure PreprocessorOutput where
  markdown : List Char
  anchors : List AnchorMeta
deriving DecidableEq

/-- Fuel-indexed decimal printer; `fuel` bounds the recursion depth (any
`fuel > n` is exact, since `n / 10 < n` for `n ≥ 10`). -/
def natToCharsAux : Nat → Nat → List Char
  | 0, _ => []
  | fuel + 1, n =>
    if n < 10 then [Char.ofNat (48 + n)]
    else natToCharsAux fuel (n / 10) ++ [Char.ofNat (48 + n % 10)]

/-- Decimal digits of a natural number, most significant first (the `{}`
Display of Rust's `usize`). -/
def natToChars (n : Nat) : List Char := natToCharsAux (n + 1) n

/-- The loop-anchor id `format!("tf-{}-{}", start, count)`
(`preprocessor.rs:464`). -/
def anchorIdOf (start count : Nat) : List Char :=
  ("tf-".data) ++ natToChars start ++ '-' :: natToChars count

/-- Rust `offset_to_line_column` (`preprocessor.rs:506-518`): count newlines in the
text before the offset; the column resets at each newline. -/
def offset_to_line_column (source : List Char) (offset : Nat) : Nat × Nat :=
  (source.take offset).foldl
    (fun lc ch => if ch = '\n' then (lc.1 + 1, 0) else (lc.1, lc.2 + 1)) (0, 0)

/-- Rust `build_anchor_markup` (`preprocessor.rs:520-536`): a comment-wrapped
`#label` call carrying the id, preceded by a newline when the insertion point
is not already at the start of a line. -/
def build_anchor_markup (source : List Char) (offset : Nat) (id : List Char) : List Char :=
  (if 0 < offset ∧ (source.take offset).getLast? ≠ some '\n' then ['\n'] else []) ++
    ("<!--raw-typst #label(\"".data) ++ id ++ ("\") -->\n".data)

/-- The backward scan for the start of the line containing `offset`
(`preprocessor.rs:448-451`): walk left while the previous character is not a
newline. (Rust scans bytes; a UTF-8 continuation byte never equals `b'\n'`,
so the byte scan and this character scan stop at the same boundary.) -/
def find_line_start (md : List Char) : Nat → Nat
  | 0 => 0
  | i + 1 => if md.getD i ' ' = '\n' then i + 1 else find_line_start md i

/-- Rust `str::trim_start`. -/
def rustTrimStart (s : List Char) : List Char := s.dropWhile rustIsWhitespace

/-- The state of the anchor loop: pending insertions, emitted anchors, and the
set of claimed offsets (`preprocessor.rs:393-395`). -/
structure AnchorState where
  insertions : List (Nat × List Char)
  anchors : List AnchorMeta
  seen : List Nat

/-- The blockquote tags skipped outright (`preprocessor.rs:430-432`). -/
def isBlockQuoteTag : MdTag → Bool
  | .blockQuote => true
  | _ => false

/-- The table tags skipped outright (`preprocessor.rs:437-441`). -/
def isTableTag : MdTag → Bool
  | .table => true
  | .tableHead => true
  | .tableRow => true
  | .tableCell => true
  | _ => false

/-- One iteration of the event loop of `inject_anchors`
(`preprocessor.rs:421-475`): only block-level start tags are considered;
blockquote and table tags are skipped; a start whose line begins with `'>'`
is skipped; an already-claimed offset is skipped; otherwise an anchor with id
`tf-start-count` is recorded together with its insertion. -/
def anchorStep (md : List Char) (st : AnchorState) (er : EventR) : AnchorState :=
  match er.1 with
  | .startTag tag =>
    if !is_block_level tag then st
    else if isBlockQuoteTag tag then st
    else if isTableTag tag then st
    else
      let insertion_offset := er.2.1
      let line_start := find_line_start md insertion_offset
      let first_line := (md.drop line_start).takeWhile (· ≠ '\n')
      if (rustTrimStart first_line).head? = some '>' then st
      else if insertion_offset ∈ st.seen then st
      else
        let id := anchorIdOf er.2.1 st.anchors.length
        let lc := offset_to_line_column md er.2.1
        let anchor_markup := build_anchor_markup md insertion_offset id
        { insertions := st.insertions ++ [(insertion_offset, anchor_markup)],
          anchors := st.anchors ++ [⟨id, er.2.1, lc.1, lc.2⟩],
          seen := insertion_offset :: st.seen }
  | _ => st

/-- The document-start anchor emitted before the scan
(`preprocessor.rs:397-410`); the `seen_offsets.contains(&0)` guard is
vacuously passed on the fresh state. -/
def initAnchorState (md : List Char) : AnchorState :=
  { insertions := [(0, build_anchor_markup md 0 ("tf-doc-start".data))],
    anchors := [⟨("tf-doc-start".data), 0, 0, 0⟩],
    seen := [0] }

/-- Rust `String::insert_str (offset, snippet)` on the model. The offsets
reaching it are parser offsets into the original text, which are within
bounds, so the Rust panic path is not modelled. -/
def insertAt (out : List Char) (offset : Nat) (snippet : List Char) : List Char :=
  out.take offset ++ snippet ++ out.drop offset

/-- Stable sort of the insertions by offset (`insertions.sort_by_key`,
`preprocessor.rs:477`); the offsets are pairwise distinct by construction, so
stability is not observable. -/
def sortInsertions (l : List (Nat × List Char)) : List (Nat × List Char) :=
  List.insertionSort (fun a b => a.1 ≤ b.1) l

/-- The event-loop fold of `inject_anchors` from the seeded state. -/
def anchorFold (md : List Char) (events : List EventR) : AnchorState :=
  events.foldl (anchorStep md) (initAnchorState md)

/-- Rust `inject_anchors` (`preprocessor.rs:392-487`): seed the document-start
anchor, fold the event loop, then apply the collected insertions to the
original text in descending offset order. -/
def inject_anchors (md : List Char) (events : List EventR) : PreprocessorOutput :=
  let st := anchorFold md events
  let output :=
    (sortInsertions st.insertions).reverse.foldl (fun out p => insertAt out p.1 p.2) md
  { markdown := output, anchors := st.anchors }

/-- Rust `preprocess_markdown` (`preprocessor.rs:48-52`): extraction, then anchor
injection on the rewritten text; `eventsOf` supplies the parser's event
stream for each text. -/
def preprocess_markdown (eventsOf : List Char → List EventR) (markdown : List Char) :
    PreprocessorOutput :=
  let transformed := inject_tikz_blocks markdown (eventsOf markdown)
  inject_anchors transformed (eventsOf transformed)

/-! ## Concrete inputs used by the example claims -/

/-- The spec example input `"# Title\n\nHello"`. -/
def mdTitleC3 : List Char := ("# Title\n\nHello".data)

/-- pulldown-cmark's block event stream for `"# Title\n\nHello"` (an external
library behaviour, modelled): the heading spans bytes `0..8`, its inline text
`2..7`, and the paragraph `9..14`. -/
def eventsTitleC3 : List EventR :=
  [(MdEvent.startTag MdTag.heading, 0, 8),
   (MdEvent.text ("Title".data), 2, 7),
   (MdEvent.endTag MdTag.heading, 0, 8),
   (MdEvent.startTag MdTag.paragraph, 9, 14),
   (MdEvent.text ("Hello".data), 9, 14),
   (MdEvent.endTag MdTag.paragraph, 9, 14)]

/-- Number of (possibly overlapping) occurrences of `pat` in `s`. -/
def countOccur (pat : List Char) : List Char → Nat
  | [] => 0
  | c :: rest => (if List.isPrefixOf pat (c :: rest) then 1 else 0) + countOccur pat rest

set_option maxRecDepth 8000 in
/-- C3 counterexample. On `"# Title\n\nHello"` anchor injection yields 2
anchors, not the claimed 3: the heading starts at offset 0, which the
document-start anchor has already claimed, so its candidate is dropped by
offset deduplication; the rewritten text likewise carries 2 label
directives. -/
theorem inject_anchors_title_cex :
    (inject_anchors mdTitleC3 eventsTitleC3).anchors.length = 2 ∧
      (inject_anchors mdTitleC3 eventsTitleC3).anchors.length ≠ 3 ∧
      countOccur ("#label(".data) (inject_anchors mdTitleC3 eventsTitleC3).markdown = 2 := by
  decide

set_option maxRecDepth 8000 in
/-- C3 amended. On `"# Title\n\nHello"` anchor injection yields exactly 2
anchors — the document-start anchor (which absorbs the heading's offset-0
candidate via offset deduplication) and the paragraph anchor — and the
rewritten text contains exactly those 2 injected label directives in document
order. -/
theorem inject_anchors_title_two_anchors :
    inject_anchors mdTitleC3 eventsTitleC3 =
      { markdown :=
          (("<!--raw-typst #label(\"tf-doc-start\") -->\n# Title\n\n" ++
            "<!--raw-typst #label(\"tf-9-1\") -->\nHello").data),
        anchors :=
          [⟨("tf-doc-start".data), 0, 0, 0⟩, ⟨("tf-9-1".data), 9, 2, 0⟩] } := by
  decide

/-! ## C4: length bookkeeping of the two rewrite passes -/

/-- A concrete one-fence document for the extraction-length counterexample. -/
def mdFenceC4 : List Char := ("```tikz\nx\n```".data)

/-- pulldown-cmark's event stream for ```` ```tikz\nx\n``` ```` (external
library behaviour, modelled): the fence spans bytes `0..13`, its literal text
`8..10`. -/
def eventsFenceC4 : List EventR :=
  [(MdEvent.startTag (MdTag.codeBlockFenced ("tikz".data)), 0, 13),
   (MdEvent.text ("x\n".data), 8, 10),
   (MdEvent.endTag (MdTag.codeBlockFenced ("tikz".data)), 0, 13)]

set_option maxRecDepth 8000 in
/-- C4 counterexample. For the one-fence document the extraction pass does
not satisfy `|rewritten| = |original| + Σ|inserted|`: the pass REPLACES the
13-byte fence span by the 47-byte placeholder, so the rewritten length is 47,
not 13 + 47. -/
theorem extraction_length_cex :
    (inject_tikz_blocks mdFenceC4 eventsFenceC4).length ≠
      mdFenceC4.length +
        ((tikzReplacements eventsFenceC4).map (fun r => r.2.2.length)).sum := by
  decide

/-- Inserting a snippet always grows the buffer by the snippet length. -/
theorem insertAt_length (out : List Char) (i : Nat) (s : List Char) :
    (insertAt out i s).length = out.length + s.length := by
  simp [insertAt]
  omega

/-- Folding insertions grows the buffer by the total snippet length. -/
theorem foldl_insertAt_length (l : List (Nat × List Char)) :
    ∀ out : List Char,
      (l.foldl (fun o p => insertAt o p.1 p.2) out).length
        = out.length + (l.map (fun p => p.2.length)).sum := by
  induction l with
  | nil => intro out; simp
  | cons p tl ih =>
    intro out
    simp only [List.foldl_cons, List.map_cons, List.sum_cons, ih, insertAt_length]
    omega

/-- Sorting and reversing the insertions permutes them, preserving the total
snippet length. -/
theorem sortInsertions_snip_sum (l : List (Nat × List Char)) :
    (((sortInsertions l).reverse.map (fun p => p.2.length)).sum : Nat)
      = (l.map (fun p => p.2.length)).sum := by
  rw [List.map_reverse, List.sum_reverse]
  exact ((List.perm_insertionSort _ l).map _).sum_eq

/-- The anchor-injection pass satisfies the additive length invariant. -/
theorem inject_anchors_length (md : List Char) (events : List EventR) :
    (inject_anchors md events).markdown.length
      = md.length + ((anchorFold md events).insertions.map (fun p => p.2.length)).sum := by
  change ((sortInsertions (anchorFold md events).insertions).reverse.foldl
      (fun out p => insertAt out p.1 p.2) md).length = _
  rw [foldl_insertAt_length, sortInsertions_snip_sum]

/-- Applying replacements in descending-start order: when every span is
within bounds, ordered after all remaining spans, and well-formed, the final
length satisfies `|out'| + Σ(stop - start) = |out| + Σ|replacement|`. -/
theorem foldl_applyReplacement_length (rs : List (Nat × Nat × List Char)) :
    ∀ out : List Char,
      (∀ r ∈ rs, r.1 ≤ r.2.1) →
      List.Pairwise (fun a b => b.2.1 ≤ a.1) rs →
      (∀ r ∈ rs, r.2.1 ≤ out.length) →
      (rs.foldl applyReplacement out).length + (rs.map (fun r => r.2.1 - r.1)).sum
        = out.length + (rs.map (fun r => r.2.2.length)).sum := by
  induction rs with
  | nil => intro out _ _ _; simp
  | cons r tl ih =>
    intro out hse hpw hbound
    have hr1 : r.1 ≤ r.2.1 := hse r (by simp)
    have hr2 : r.2.1 ≤ out.length := hbound r (by simp)
    have happ : applyReplacement out r = replace_range out r.1 r.2.1 r.2.2 := by
      unfold applyReplacement
      rw [if_pos ⟨hr1, hr2⟩]
    have hlen : (applyReplacement out r).length = out.length - (r.2.1 - r.1) + r.2.2.length := by
      rw [happ]
      simp [replace_range]
      omega
    have hpw' := (List.pairwise_cons.mp hpw).2
    have hhead := (List.pairwise_cons.mp hpw).1
    have hrec := ih (applyReplacement out r) (fun x hx => hse x (by simp [hx]))
      hpw'
      (fun x hx => by
        have h1 : x.2.1 ≤ r.1 := hhead x hx
        have : r.1 ≤ (applyReplacement out r).length := by rw [hlen]; omega
        omega)
    simp only [List.foldl_cons, List.map_cons, List.sum_cons]
    omega

/-- C4 amended. The additive length law holds for the anchor-injection pass
exactly as claimed; the extraction pass instead obeys the replacement law
`|rewritten| + Σ(span lengths) = |original| + Σ(replacement lengths)` — its
edits replace the fence spans rather than inserting — stated under the
well-formedness of the collected spans (pairwise-disjoint, ascending,
in-bounds), which the parser's fence ranges satisfy. -/
theorem rewrite_length_invariant (md : List Char) (events : List EventR)
    (h1 : ∀ r ∈ tikzReplacements events, r.1 ≤ r.2.1)
    (h2 : List.Pairwise (fun a b => a.2.1 ≤ b.1) (tikzReplacements events))
    (h3 : ∀ r ∈ tikzReplacements events, r.2.1 ≤ md.length) :
    (inject_anchors md events).markdown.length
        = md.length + ((anchorFold md events).insertions.map (fun p => p.2.length)).sum
      ∧ (inject_tikz_blocks md events).length
            + ((tikzReplacements events).map (fun r => r.2.1 - r.1)).sum
          = md.length + ((tikzReplacements events).map (fun r => r.2.2.length)).sum := by
  refine ⟨inject_anchors_length md events, ?_⟩
  unfold inject_tikz_blocks
  by_cases hnil : tikzReplacements events = []
  · simp [hnil]
  · rw [if_neg hnil]
    have h2' : List.Pairwise (fun a b => b.2.1 ≤ a.1) (tikzReplacements events).reverse := by
      rw [List.pairwise_reverse]
      exact h2
    have := foldl_applyReplacement_length (tikzReplacements events).reverse md
      (fun r hr => h1 r (List.mem_reverse.mp hr)) h2'
      (fun r hr => h3 r (List.mem_reverse.mp hr))
    simp only [List.map_reverse, List.sum_reverse] at this
    exact this

set_option maxRecDepth 8000 in
/-- Witness for `rewrite_length_invariant` at the concrete one-fence
document. -/
theorem rewrite_length_invariant_witness :
    (inject_anchors mdFenceC4 eventsFenceC4).markdown.length
        = mdFenceC4.length
            + ((anchorFold mdFenceC4 eventsFenceC4).insertions.map (fun p => p.2.length)).sum
      ∧ (inject_tikz_blocks mdFenceC4 eventsFenceC4).length
            + ((tikzReplacements eventsFenceC4).map (fun r => r.2.1 - r.1)).sum
          = mdFenceC4.length
            + ((tikzReplacements eventsFenceC4).map (fun r => r.2.2.length)).sum :=
  rewrite_length_invariant mdFenceC4 eventsFenceC4 (by decide) (by decide) (by decide)

/-! ## C5: idempotence of diagram extraction

The embed directive is a single comment line; per CommonMark a code-fence
opening line consists of at most three spaces of indentation followed by at
least three backticks or tildes, which no line of the directive can be, so
re-parsing the rewritten text yields no tikz fence event and the extraction
pass is the identity on it. -/

/-- Split a text into its lines at `'\n'`. -/
def splitLines : List Char → List (List Char)
  | [] => [[]]
  | c :: rest =>
    if c = '\n' then [] :: splitLines rest
    else
      match splitLines rest with
      | [] => [[c]]
      | l :: ls => (c :: l) :: ls

/-- The backtick character (U+0060). -/
def backtickChar : Char := Char.ofNat 96

/-- At most three leading spaces of indentation (CommonMark fence rule). -/
def dropUpTo3Spaces (s : List Char) : List Char :=
  s.drop (min 3 ((s.takeWhile (· = ' ')).length))

/-- CommonMark's code-fence opening line: after at most three spaces, at
least three backticks or at least three tildes. -/
def isFenceOpenerLine (line : List Char) : Bool :=
  match dropUpTo3Spaces line with
  | c1 :: c2 :: c3 :: _ =>
    (c1 == backtickChar && (c2 == backtickChar && c3 == backtickChar)) ||
      (c1 == '~' && (c2 == '~' && c3 == '~'))
  | _ => false

/-- A tikz-fence start event: a fenced-code start whose info string parses. -/
def isTikzFenceStart (e : EventR) : Bool :=
  match e.1 with
  | .startTag (.codeBlockFenced info) => (parse_tikz_fence info).isSome
  | _ => false

/-- A scan step on an event that is not a tikz-fence start leaves the empty,
closed scan state unchanged. -/
theorem tikzScanStep_empty (e : EventR) (he : isTikzFenceStart e = false) :
    tikzScanStep ⟨[], none⟩ e = ⟨[], none⟩ := by
  obtain ⟨ev, a, b⟩ := e
  cases ev with
  | startTag t =>
    cases t with
    | codeBlockFenced info =>
      cases hp : parse_tikz_fence info with
      | some options =>
        rw [isTikzFenceStart] at he
        simp only [hp, Option.isSome_some] at he
        exact absurd he (by decide)
      | none => simp [tikzScanStep, hp]
    | _ => rfl
  | endTag t => cases t <;> rfl
  | _ => rfl

/-- With no tikz-fence start in the stream, the scan collects no edits. -/
theorem tikzScan_no_fence (events : List EventR)
    (hno : ∀ e ∈ events, isTikzFenceStart e = false) :
    events.foldl tikzScanStep ⟨[], none⟩ = ⟨[], none⟩ := by
  induction events with
  | nil => rfl
  | cons e tl ih =>
    rw [List.foldl_cons, tikzScanStep_empty e (hno e (by simp))]
    exact ih (fun x hx => hno x (by simp [hx]))

/-- No character of an escaped character is a newline. -/
theorem escape_typst_char_no_newline (c x : Char) (hx : x ∈ escape_typst_char c) : x ≠ '\n' := by
  unfold escape_typst_char at hx
  split_ifs at hx with h1 h2 h3 h4 h5 <;> simp only [List.mem_cons, List.mem_singleton,
    List.not_mem_nil, or_false] at hx
  · rcases hx with rfl | rfl <;> decide
  · rcases hx with rfl | rfl <;> decide
  · rcases hx with rfl | rfl <;> decide
  · rcases hx with rfl | rfl <;> decide
  · rcases hx with rfl | rfl <;> decide
  · subst hx; exact h3

/-- The escaping never emits a newline. -/
theorem escape_no_newline (s : List Char) : '\n' ∉ escape_typst_string s := by
  induction s with
  | nil => simp [escape_typst_string]
  | cons c rest ih =>
    simp only [escape_typst_string, List.mem_append]
    rintro (h | h)
    · exact escape_typst_char_no_newline c _ h rfl
    · exact ih h

/-- No digit run contains a newline. -/
theorem takeWhile_digits_no_newline (l : List Char) : '\n' ∉ l.takeWhile isAsciiDigit :=
  fun h => absurd (List.mem_takeWhile_imp h) (by decide)

/-- The decimal printer never emits a newline when fed digit runs. -/
theorem f32Display_no_newline (sign : Bool) (intPart fracPart : List Char)
    (hip : '\n' ∉ intPart) (hfp : '\n' ∉ fracPart) :
    '\n' ∉ f32Display sign intPart fracPart := by
  intro hmem
  unfold f32Display at hmem
  simp only [List.mem_append] at hmem
  rcases hmem with (hmem | hmem) | hmem
  · split_ifs at hmem <;>
      simp only [List.mem_singleton, List.not_mem_nil] at hmem <;>
      exact absurd hmem (by decide)
  · split_ifs at hmem with hz
    · simp only [List.mem_singleton] at hmem
      exact absurd hmem (by decide)
    · exact hip ((List.dropWhile_sublist _).subset hmem)
  · split_ifs at hmem with hf
    · simp at hmem
    · simp only [List.mem_cons] at hmem
      rcases hmem with hmem | hmem
      · exact absurd hmem (by decide)
      · rw [List.mem_reverse] at hmem
        have hmem2 := (List.dropWhile_sublist _).subset hmem
        rw [List.mem_reverse] at hmem2
        exact hfp hmem2

/-- The modelled float Display never emits a newline. -/
theorem f32ParseDisplay_no_newline (s r : List Char) (h : f32ParseDisplay s = some r) :
    '\n' ∉ r := by
  unfold f32ParseDisplay at h
  dsimp only at h
  split at h
  · split_ifs at h
    rw [Option.some.injEq] at h
    subst h
    exact f32Display_no_newline _ _ _ (takeWhile_digits_no_newline _) (by simp)
  · split_ifs at h
    rw [Option.some.injEq] at h
    subst h
    exact f32Display_no_newline _ _ _ (takeWhile_digits_no_newline _)
      (takeWhile_digits_no_newline _)
  · exact absurd h (by simp)

/-- The formatted scale value never contains a newline. -/
theorem format_scale_no_newline (s : List Char) : '\n' ∉ format_scale_value s := by
  intro hmem
  unfold format_scale_value at hmem
  dsimp only at hmem
  split_ifs at hmem <;> try exact absurd hmem (by decide)
  revert hmem
  split
  · rename_i formatted heq
    intro hmem
    split_ifs at hmem with hdot hlast
    · simp only [List.mem_append, List.mem_singleton] at hmem
      rcases hmem with hmem | hmem
      · exact f32ParseDisplay_no_newline _ _ heq
          (List.mem_reverse.mp ((List.dropWhile_sublist _).subset (List.mem_reverse.mp hmem)))
      · exact absurd hmem (by decide)
    · exact f32ParseDisplay_no_newline _ _ heq
        (List.mem_reverse.mp ((List.dropWhile_sublist _).subset (List.mem_reverse.mp hmem)))
    · exact f32ParseDisplay_no_newline _ _ heq hmem
  · rename_i heq
    intro hmem
    simp only [List.mem_cons, List.mem_append, List.mem_singleton] at hmem
    rcases hmem with hmem | hmem | hmem
    · exact absurd hmem (by decide)
    · exact escape_no_newline _ hmem
    · exact absurd hmem (by decide)

/-- Joining newline-free arguments with `", "` yields a newline-free text. -/
theorem joinArgs_no_newline (args : List (List Char))
    (h : ∀ a ∈ args, '\n' ∉ a) : '\n' ∉ joinArgs args := by
  induction args with
  | nil => simp [joinArgs]
  | cons a rest ih =>
    cases rest with
    | nil => exact h a (by simp)
    | cons b tl =>
      show '\n' ∉ a ++ (", ".data) ++ joinArgs (b :: tl)
      simp only [List.mem_append]
      rintro ((ha | hsep) | hjoin)
      · exact h a (by simp) ha
      · exact absurd hsep (by decide)
      · exact ih (fun x hx => h x (by simp [hx])) hjoin

/-- Every placeholder argument is newline-free: the escaping, the scale
formatter and the literal fragments never emit `'\n'`. -/
theorem placeholderArgs_no_newline (content : List Char) (options : TikzFenceOptions) :
    ∀ a ∈ placeholderArgs content options, '\n' ∉ a := by
  obtain ⟨scaleOpt, preambleOpt, formatOpt⟩ := options
  have hdiag : '\n' ∉ ("diagram: \"".data) ++ escape_typst_string content ++ ['"'] := by
    simp only [List.mem_append, List.mem_singleton]
    rintro ((hp | he) | hq)
    · exact absurd hp (by decide)
    · exact escape_no_newline _ he
    · exact absurd hq (by decide)
  have hpre : ∀ p, '\n' ∉ ("preamble: \"".data) ++ escape_typst_string p ++ ['"'] := by
    intro p
    simp only [List.mem_append, List.mem_singleton]
    rintro ((hp | he) | hq)
    · exact absurd hp (by decide)
    · exact escape_no_newline _ he
    · exact absurd hq (by decide)
  have hfmt : ∀ f, '\n' ∉ ("format: \"".data) ++ escape_typst_string f ++ ['"'] := by
    intro f
    simp only [List.mem_append, List.mem_singleton]
    rintro ((hp | he) | hq)
    · exact absurd hp (by decide)
    · exact escape_no_newline _ he
    · exact absurd hq (by decide)
  have hsc : ∀ sc, '\n' ∉ ("scale: ".data) ++ format_scale_value sc := by
    intro sc
    simp only [List.mem_append]
    rintro (hp | hv)
    · exact absurd hp (by decide)
    · exact format_scale_no_newline _ hv
  intro a ha
  rcases scaleOpt with _ | sc <;> rcases preambleOpt with _ | p <;> rcases formatOpt with _ | f <;>
      simp only [placeholderArgs] at ha <;>
      (try split_ifs at ha) <;>
      simp only [List.mem_append, List.mem_cons, List.not_mem_nil, or_false] at ha <;>
      first
        | (rcases ha with ((rfl | rfl) | rfl) | rfl <;>
            first
              | exact hdiag
              | exact hpre _
              | exact hfmt _
              | exact hsc _)
        | (rcases ha with (rfl | rfl) | rfl <;>
            first
              | exact hdiag
              | exact hpre _
              | exact hfmt _
              | exact hsc _)
        | (rcases ha with rfl | rfl <;>
            first
              | exact hdiag
              | exact hpre _
              | exact hfmt _
              | exact hsc _)
        | (subst ha;
           first
             | exact hdiag
             | exact hpre _
             | exact hfmt _
             | exact hsc _)

/-- Splitting a newline-free text followed by one newline yields exactly that
line and a trailing empty line. -/
theorem splitLines_append_newline (L : List Char) (h : '\n' ∉ L) :
    splitLines (L ++ ['\n']) = [L, []] := by
  induction L with
  | nil => rfl
  | cons c rest ih =>
    have hc : c ≠ '\n' := fun hc => h (hc ▸ List.mem_cons_self c rest)
    have hrest : '\n' ∉ rest := fun hr => h (List.mem_cons_of_mem c hr)
    rw [List.cons_append, splitLines, if_neg hc, ih hrest]

/-- A line starting with `'<'` is not a code-fence opener. -/
theorem isFenceOpenerLine_lt (xs : List Char) : isFenceOpenerLine ('<' :: xs) = false := by
  have hd : dropUpTo3Spaces ('<' :: xs) = '<' :: xs := by
    simp [dropUpTo3Spaces, List.takeWhile_cons]
  unfold isFenceOpenerLine
  rw [hd]
  match xs with
  | [] => rfl
  | [_] => rfl
  | c2 :: c3 :: t =>
    simp only [show ('<' == backtickChar) = false from rfl, show ('<' == '~') = false from rfl,
      Bool.false_and, Bool.or_self]

/-- The placeholder decomposes as one newline-free line ending in a single
newline. -/
theorem build_tikz_placeholder_line (content : List Char) (options : TikzFenceOptions) :
    build_tikz_placeholder content options =
      ('<' :: (("!--raw-typst #tikz_render(".data) ++ joinArgs (placeholderArgs content options)
        ++ (") -->".data))) ++ ['\n'] ∧
    '\n' ∉ '<' :: (("!--raw-typst #tikz_render(".data) ++
      joinArgs (placeholderArgs content options) ++ (") -->".data)) := by
  constructor
  · show ("<!--raw-typst #tikz_render(".data) ++ joinArgs (placeholderArgs content options) ++
      (") -->\n".data) = _
    simp only [List.append_assoc, List.cons_append]
    rfl
  · simp only [List.mem_cons, List.mem_append]
    rintro (hc | (hp | hj) | hs)
    · exact absurd hc (by decide)
    · exact absurd hp (by decide)
    · exact joinArgs_no_newline _ (placeholderArgs_no_newline content options) hj
    · exact absurd hs (by decide)

/-- C5. Diagram extraction is idempotent: (i) on any event stream free of
tikz-fence starts the extraction pass returns the text unchanged, and (ii) no
line of an emitted embed directive is a CommonMark code-fence opener — the
directive is a single `<!--`-initial comment line — so re-parsing rewritten
text yields no tikz-fence start for the parser to match. -/
theorem extraction_idempotent (markdown : List Char) (events : List EventR)
    (hno : ∀ e ∈ events, isTikzFenceStart e = false) :
    inject_tikz_blocks markdown events = markdown
    ∧ ∀ content options line, line ∈ splitLines (build_tikz_placeholder content options) →
        isFenceOpenerLine line = false := by
  constructor
  · unfold inject_tikz_blocks tikzReplacements
    rw [tikzScan_no_fence events hno]
    rfl
  · intro content options line hline
    obtain ⟨hsplit, hnl⟩ := build_tikz_placeholder_line content options
    rw [hsplit, splitLines_append_newline _ hnl] at hline
    simp only [List.mem_cons, List.mem_singleton, List.not_mem_nil, or_false] at hline
    rcases hline with rfl | rfl
    · exact isFenceOpenerLine_lt _
    · rfl

/-- A fence-free event stream over `"Hello"`. -/
def eventsHelloC5 : List EventR :=
  [(MdEvent.startTag MdTag.paragraph, 0, 5),
   (MdEvent.text ("Hello".data), 0, 5),
   (MdEvent.endTag MdTag.paragraph, 0, 5)]

/-- Witness for `extraction_idempotent` at the concrete fence-free document
`"Hello"` and the placeholder of the one-line diagram `"x"`. -/
theorem extraction_idempotent_witness :
    inject_tikz_blocks ("Hello".data) eventsHelloC5 = ("Hello".data)
    ∧ isFenceOpenerLine
        ((splitLines (build_tikz_placeholder ("x".data) TikzFenceOptions.init)).headD [])
        = false := by
  have h := extraction_idempotent ("Hello".data) eventsHelloC5 (by decide)
  refine ⟨h.1, h.2 ("x".data) TikzFenceOptions.init _ ?_⟩
  decide

/-! ## C6: anchor id uniqueness and offset monotonicity -/

/-- Every character printed by the decimal printer is an ASCII digit. -/
theorem natToCharsAux_digits : ∀ (fuel n : Nat), ∀ c ∈ natToCharsAux fuel n,
    isAsciiDigit c = true := by
  intro fuel
  induction fuel with
  | zero => intro n c hc; simp [natToCharsAux] at hc
  | succ fuel ih =>
    intro n c hc
    rw [natToCharsAux] at hc
    split_ifs at hc with h10
    · simp only [List.mem_singleton] at hc
      subst hc
      interval_cases n <;> decide
    · simp only [List.mem_append, List.mem_singleton] at hc
      rcases hc with hc | hc
      · exact ih _ c hc
      · subst hc
        have : n % 10 < 10 := Nat.mod_lt _ (by omega)
        set m := n % 10 with hm
        interval_cases m <;> decide

/-- The decimal printer never returns the empty list (with positive fuel). -/
theorem natToCharsAux_ne_nil (fuel n : Nat) (hf : 0 < fuel) :
    natToCharsAux fuel n ≠ [] := by
  cases fuel with
  | zero => omega
  | succ fuel =>
    rw [natToCharsAux]
    split_ifs
    · simp
    · simp

/-- Decimal digits back to the number they print. -/
def digitsToNat (l : List Char) : Nat :=
  l.foldl (fun acc c => acc * 10 + (c.toNat - 48)) 0

/-- The map `digitsToNat` inverts the decimal printer whenever the fuel suffices. -/
theorem digitsToNat_natToCharsAux : ∀ (fuel n : Nat), n < fuel →
    digitsToNat (natToCharsAux fuel n) = n := by
  intro fuel
  induction fuel with
  | zero => omega
  | succ fuel ih =>
    intro n hn
    rw [natToCharsAux]
    split_ifs with h10
    · show (0 * 10 + ((Char.ofNat (48 + n)).toNat - 48)) = n
      interval_cases n <;> decide
    · have hrec : digitsToNat (natToCharsAux fuel (n / 10)) = n / 10 := by
        apply ih
        have := Nat.div_lt_self (show 0 < n by omega) (show 1 < 10 by omega)
        omega
      have hsplit : digitsToNat (natToCharsAux fuel (n / 10) ++ [Char.ofNat (48 + n % 10)])
          = digitsToNat (natToCharsAux fuel (n / 10)) * 10
            + ((Char.ofNat (48 + n % 10)).toNat - 48) := by
        simp [digitsToNat, List.foldl_append]
      rw [hsplit, hrec]
      have hm : n % 10 < 10 := Nat.mod_lt _ (by omega)
      have hdig : (Char.ofNat (48 + n % 10)).toNat - 48 = n % 10 := by
        set m := n % 10 with hmm
        interval_cases m <;> decide
      rw [hdig]
      omega

/-- The decimal printer is injective. -/
theorem natToChars_inj (n1 n2 : Nat) (h : natToChars n1 = natToChars n2) : n1 = n2 := by
  have h1 := digitsToNat_natToCharsAux (n1 + 1) n1 (by omega)
  have h2 := digitsToNat_natToCharsAux (n2 + 1) n2 (by omega)
  rw [natToChars, natToChars] at h
  rw [← h1, ← h2, h]

/-- No printed digit is the `'-'` separator. -/
theorem natToChars_no_dash (n : Nat) : '-' ∉ natToChars n := by
  intro hmem
  have := natToCharsAux_digits (n + 1) n '-' hmem
  exact absurd this (by decide)

/-- Splitting at a separator absent from both prefixes is unambiguous. -/
theorem append_sep_inj : ∀ (xs1 : List Char) {ys1 : List Char} (xs2 : List Char)
    {ys2 : List Char}, xs1 ++ '-' :: ys1 = xs2 ++ '-' :: ys2 →
    '-' ∉ xs1 → '-' ∉ xs2 → xs1 = xs2 ∧ ys1 = ys2 := by
  intro xs1
  induction xs1 with
  | nil =>
    intro ys1 xs2 ys2 h h1 h2
    cases xs2 with
    | nil => simpa using h
    | cons d xs2 =>
      rw [List.nil_append, List.cons_append, List.cons.injEq] at h
      exact absurd (h.1 ▸ List.mem_cons_self d xs2) h2
  | cons c xs1 ih =>
    intro ys1 xs2 ys2 h h1 h2
    cases xs2 with
    | nil =>
      rw [List.nil_append, List.cons_append, List.cons.injEq] at h
      exact absurd (h.1.symm ▸ List.mem_cons_self c xs1) h1
    | cons d xs2 =>
      rw [List.cons_append, List.cons_append, List.cons.injEq] at h
      obtain ⟨rfl, hrest⟩ := h
      obtain ⟨hxs, hys⟩ := ih xs2 hrest (fun hm => h1 (List.mem_cons_of_mem _ hm))
        (fun hm => h2 (List.mem_cons_of_mem _ hm))
      exact ⟨by rw [hxs], hys⟩

/-- The loop-anchor id determines both its offset and its counter. -/
theorem anchorIdOf_inj (o1 k1 o2 k2 : Nat) (h : anchorIdOf o1 k1 = anchorIdOf o2 k2) :
    o1 = o2 ∧ k1 = k2 := by
  have hshape : ∀ o k, anchorIdOf o k = 't' :: 'f' :: '-' :: (natToChars o ++ '-' :: natToChars k) :=
    fun o k => rfl
  rw [hshape, hshape, List.cons.injEq, List.cons.injEq, List.cons.injEq] at h
  obtain ⟨hx, hy⟩ := append_sep_inj (natToChars o1) (natToChars o2) h.2.2.2
    (natToChars_no_dash o1) (natToChars_no_dash o2)
  exact ⟨natToChars_inj _ _ hx, natToChars_inj _ _ hy⟩

/-- No loop-anchor id collides with the document-start id. -/
theorem anchorIdOf_ne_doc (o k : Nat) : anchorIdOf o k ≠ ("tf-doc-start".data) := by
  intro h
  have hshape : anchorIdOf o k = 't' :: 'f' :: '-' :: (natToChars o ++ '-' :: natToChars k) := rfl
  have hdoc : ("tf-doc-start".data) = 't' :: 'f' :: '-' :: ('d' :: ("oc-start".data)) := rfl
  rw [hshape, hdoc, List.cons.injEq, List.cons.injEq, List.cons.injEq] at h
  have h4 := h.2.2.2
  cases hno : natToChars o with
  | nil => exact natToCharsAux_ne_nil (o + 1) o (by omega) hno
  | cons c rest =>
    rw [hno, List.cons_append, List.cons.injEq] at h4
    have hc : c ∈ natToChars o := hno ▸ List.mem_cons_self c rest
    have := natToCharsAux_digits (o + 1) o c hc
    rw [h4.1] at this
    exact absurd this (by decide)

/-- The document-start anchor (`preprocessor.rs:399-408`). -/
def docStartAnchor : AnchorMeta := ⟨("tf-doc-start".data), 0, 0, 0⟩

/-- The anchors after the document-start one carry ids
`anchorIdOf offset k` for consecutive counters `k, k+1, …`. -/
def idsFrom : Nat → List AnchorMeta → Prop
  | _, [] => True
  | k, a :: rest => a.id = anchorIdOf a.offset k ∧ idsFrom (k + 1) rest

/-- Appending one more anchor with the next counter preserves `idsFrom`. -/
theorem idsFrom_append : ∀ (l : List AnchorMeta) (k : Nat) (a : AnchorMeta),
    idsFrom k l → a.id = anchorIdOf a.offset (k + l.length) → idsFrom k (l ++ [a]) := by
  intro l
  induction l with
  | nil => intro k a _ ha; exact ⟨by simpa using ha, trivial⟩
  | cons b tl ih =>
    intro k a h ha
    exact ⟨h.1, ih (k + 1) a h.2 (by rw [ha]; congr 1; simp; omega)⟩

/-- Every anchor in an `idsFrom k` list carries some counter `≥ k`. -/
theorem idsFrom_mem : ∀ (l : List AnchorMeta) (k : Nat), idsFrom k l →
    ∀ a ∈ l, ∃ j, k ≤ j ∧ a.id = anchorIdOf a.offset j := by
  intro l
  induction l with
  | nil => intro k _ a ha; simp at ha
  | cons b tl ih =>
    intro k h a ha
    rcases List.mem_cons.mp ha with rfl | ha
    · exact ⟨k, le_refl k, h.1⟩
    · obtain ⟨j, hj, hid⟩ := ih (k + 1) h.2 a ha
      exact ⟨j, by omega, hid⟩

/-- Consecutive counters make all loop-anchor ids pairwise distinct. -/
theorem idsFrom_pairwise : ∀ (l : List AnchorMeta) (k : Nat), idsFrom k l →
    List.Pairwise (fun a b : AnchorMeta => a.id ≠ b.id) l := by
  intro l
  induction l with
  | nil => intro k _; exact List.Pairwise.nil
  | cons b tl ih =>
    intro k h
    refine List.pairwise_cons.mpr ⟨?_, ih (k + 1) h.2⟩
    intro a ha heq
    obtain ⟨j, hj, hid⟩ := idsFrom_mem tl (k + 1) h.2 a ha
    rw [h.1, hid] at heq
    have := (anchorIdOf_inj _ _ _ _ heq).2
    omega

/-- A document-start head plus consecutive loop counters give pairwise
distinct ids. -/
theorem anchors_pairwise_ne (rest : List AnchorMeta) (h : idsFrom 1 rest) :
    List.Pairwise (fun a b : AnchorMeta => a.id ≠ b.id) (docStartAnchor :: rest) := by
  refine List.pairwise_cons.mpr ⟨?_, idsFrom_pairwise rest 1 h⟩
  intro a ha heq
  obtain ⟨j, _, hid⟩ := idsFrom_mem rest 1 h a ha
  exact anchorIdOf_ne_doc a.offset j (by rw [← hid, ← heq]; rfl)

/-- The loop invariant of `inject_anchors`: the anchor list is the
document-start anchor followed by loop anchors with consecutive counters, the
`seen` set holds exactly the anchors' offsets, and the offsets are strictly
increasing in list order. -/
def AnchorInv (st : AnchorState) : Prop :=
  (∃ rest, st.anchors = docStartAnchor :: rest ∧ idsFrom 1 rest)
  ∧ (∀ o, o ∈ st.seen ↔ ∃ a ∈ st.anchors, a.offset = o)
  ∧ List.Pairwise (· < ·) (st.anchors.map (fun a => a.offset))

/-- A start event, the only kind that can add an anchor. -/
def isStartEvent (e : EventR) : Bool :=
  match e.1 with
  | .startTag _ => true
  | _ => false

/-- One anchor step preserves the invariant; any new anchor sits at the
event's start offset. -/
theorem anchorStep_inv (md : List Char) (st : AnchorState) (e : EventR)
    (hinv : AnchorInv st)
    (hbound : isStartEvent e = true → ∀ a ∈ st.anchors, a.offset ≤ e.2.1) :
    AnchorInv (anchorStep md st e)
    ∧ ∀ a ∈ (anchorStep md st e).anchors,
        a ∈ st.anchors ∨ (isStartEvent e = true ∧ a.offset = e.2.1) := by
  obtain ⟨ev, rs, re⟩ := e
  cases ev with
  | startTag tag =>
    show AnchorInv (anchorStep md st (MdEvent.startTag tag, rs, re)) ∧ _
    rw [anchorStep]
    dsimp only
    split_ifs with h1 h2 h3 h4 h5
    · exact ⟨hinv, fun a ha => Or.inl ha⟩
    · exact ⟨hinv, fun a ha => Or.inl ha⟩
    · exact ⟨hinv, fun a ha => Or.inl ha⟩
    · exact ⟨hinv, fun a ha => Or.inl ha⟩
    · exact ⟨hinv, fun a ha => Or.inl ha⟩
    · -- the add branch: `rs ∉ st.seen`
      obtain ⟨⟨rest, hshape, hids⟩, hseen, hsorted⟩ := hinv
      have hboundS := hbound rfl
      have hnotmem : ∀ a ∈ st.anchors, a.offset ≠ rs := by
        intro a ha heq
        exact h5 ((hseen rs).mpr ⟨a, ha, heq⟩)
      refine ⟨⟨⟨rest ++ [⟨anchorIdOf rs st.anchors.length, rs,
        (offset_to_line_column md rs).1, (offset_to_line_column md rs).2⟩], ?_, ?_⟩, ?_, ?_⟩, ?_⟩
      · rw [hshape]
        rfl
      · refine idsFrom_append rest 1 _ hids ?_
        show anchorIdOf rs st.anchors.length = anchorIdOf rs (1 + rest.length)
        rw [hshape]
        simp only [List.length_cons]
        congr 1
        omega
      · intro o
        simp only [List.mem_cons, List.mem_append, List.mem_singleton, List.not_mem_nil,
          or_false]
        constructor
        · rintro (rfl | ho)
          · exact ⟨_, Or.inr rfl, rfl⟩
          · obtain ⟨a, ha, rfl⟩ := (hseen o).mp ho
            exact ⟨a, Or.inl ha, rfl⟩
        · rintro ⟨a, ha | rfl, rfl⟩
          · exact Or.inr ((hseen a.offset).mpr ⟨a, ha, rfl⟩)
          · exact Or.inl rfl
      · rw [List.map_append]
        rw [List.pairwise_append]
        refine ⟨hsorted, List.pairwise_singleton _ _, ?_⟩
        intro x hx y hy
        simp only [List.map_cons, List.map_nil, List.mem_singleton] at hy
        subst hy
        obtain ⟨a, ha, rfl⟩ := List.mem_map.mp hx
        exact lt_of_le_of_ne (hboundS a ha) (hnotmem a ha)
      · intro a ha
        simp only [List.mem_append, List.mem_cons, List.mem_singleton, List.not_mem_nil,
          or_false] at ha
        rcases ha with ha | rfl
        · exact Or.inl ha
        · exact Or.inr ⟨rfl, rfl⟩
  | endTag t => exact ⟨hinv, fun a ha => Or.inl ha⟩
  | text s => exact ⟨hinv, fun a ha => Or.inl ha⟩
  | code s => exact ⟨hinv, fun a ha => Or.inl ha⟩
  | softBreak => exact ⟨hinv, fun a ha => Or.inl ha⟩
  | hardBreak => exact ⟨hinv, fun a ha => Or.inl ha⟩
  | otherEvent => exact ⟨hinv, fun a ha => Or.inl ha⟩

/-- Folding the anchor loop preserves the invariant provided the start
events come in non-decreasing start-offset order. -/
theorem anchorFold_inv_aux (md : List Char) : ∀ (events : List EventR) (st : AnchorState),
    AnchorInv st →
    (∀ a ∈ st.anchors, ∀ e ∈ events, isStartEvent e = true → a.offset ≤ e.2.1) →
    List.Pairwise
      (fun a b : EventR => isStartEvent a = true → isStartEvent b = true → a.2.1 ≤ b.2.1)
      events →
    AnchorInv (events.foldl (anchorStep md) st) := by
  intro events
  induction events with
  | nil => intro st hinv _ _; exact hinv
  | cons e tl ih =>
    intro st hinv hbound hsorted
    rw [List.foldl_cons]
    obtain ⟨hinv', hnew⟩ := anchorStep_inv md st e hinv
      (fun hs => fun a ha => hbound a ha e (by simp) hs)
    refine ih (anchorStep md st e) hinv' ?_ (List.pairwise_cons.mp hsorted).2
    intro a ha e' he' hs'
    rcases hnew a ha with hold | ⟨hse, hoff⟩
    · exact hbound a hold e' (by simp [he']) hs'
    · rw [hoff]
      exact (List.pairwise_cons.mp hsorted).1 e' he' hse hs'

/-- The seeded state satisfies the invariant. -/
theorem initAnchorState_inv (md : List Char) : AnchorInv (initAnchorState md) := by
  refine ⟨⟨[], rfl, trivial⟩, ?_, ?_⟩
  · intro o
    simp only [initAnchorState, List.mem_singleton, List.mem_cons, List.not_mem_nil, or_false]
    constructor
    · rintro rfl
      exact ⟨docStartAnchor, rfl, rfl⟩
    · rintro ⟨a, rfl, rfl⟩
      rfl
  · simp [initAnchorState]

set_option maxRecDepth 2000 in
/-- C6 counterexample. On the document `"Hi"` the produced anchor list is the
single document-start anchor, whose id is the literal `"tf-doc-start"` — not
of the claimed form `"tf-" + startOffset + "-" + currentAnchorCount` (which
at offset 0 and count 0 would read `"tf-0-0"`). -/
theorem anchor_id_form_cex :
    ((inject_anchors ("Hi".data)
        [(MdEvent.startTag MdTag.paragraph, 0, 2),
         (MdEvent.text ("Hi".data), 0, 2),
         (MdEvent.endTag MdTag.paragraph, 0, 2)]).anchors.map (fun a => a.id))
      = [("tf-doc-start".data)]
    ∧ ("tf-doc-start".data) ≠ anchorIdOf 0 0 := by
  decide

/-- C6 amended. For every input and every event stream whose start events
carry non-decreasing start offsets (as pulldown-cmark's block pre-order
does), the anchor list has pairwise-distinct ids and strictly increasing
byte offsets; every anchor EXCEPT the first is of the claimed form
`"tf-" + startOffset + "-" + count` with consecutive counters starting at 1,
while the first anchor is the document-start anchor with the literal id
`"tf-doc-start"` at offset 0. -/
theorem anchor_ids_unique_offsets_monotone (md : List Char) (events : List EventR)
    (hsorted : List.Pairwise
      (fun a b : EventR => isStartEvent a = true → isStartEvent b = true → a.2.1 ≤ b.2.1)
      events) :
    ((inject_anchors md events).anchors.Pairwise (fun a b => a.id ≠ b.id))
    ∧ List.Pairwise (· < ·) ((inject_anchors md events).anchors.map (fun a => a.offset))
    ∧ ∃ rest, (inject_anchors md events).anchors = docStartAnchor :: rest ∧ idsFrom 1 rest := by
  have hinit_bound : ∀ a ∈ (initAnchorState md).anchors, ∀ e ∈ events,
      isStartEvent e = true → a.offset ≤ e.2.1 := by
    intro a ha e _ _
    simp only [initAnchorState, List.mem_cons, List.not_mem_nil, or_false] at ha
    subst ha
    exact Nat.zero_le _
  have hinv := anchorFold_inv_aux md events (initAnchorState md) (initAnchorState_inv md)
    hinit_bound hsorted
  have hanch : (inject_anchors md events).anchors = (anchorFold md events).anchors := rfl
  obtain ⟨⟨rest, hshape, hids⟩, _, hsort⟩ := hinv
  rw [hanch]
  exact ⟨hshape ▸ anchors_pairwise_ne rest hids, hsort, rest, hshape, hids⟩

set_option maxRecDepth 8000 in
/-- Witness for `anchor_ids_unique_offsets_monotone` at the concrete
`"# Title\n\nHello"` event stream. -/
theorem anchor_ids_unique_witness :
    ((inject_anchors mdTitleC3 eventsTitleC3).anchors.Pairwise (fun a b => a.id ≠ b.id))
    ∧ List.Pairwise (· < ·) ((inject_anchors mdTitleC3 eventsTitleC3).anchors.map
        (fun a => a.offset))
    ∧ ∃ rest, (inject_anchors mdTitleC3 eventsTitleC3).anchors = docStartAnchor :: rest
        ∧ idsFrom 1 rest :=
  anchor_ids_unique_offsets_monotone mdTitleC3 eventsTitleC3 (by decide)

/-! ## C2: batch behaviour of `prepare_tikz_assets` (`tikz.rs:21-98`)

The Tectonic/Pdfium invocations inside `compile_block` and
`build_error_artifact` are external-process behaviours: they enter the
embedding as an environment of outcome functions. Filesystem writes are
modelled as succeeding (the claim concerns compile/fallback failures, not IO
failures, which the spec classifies separately as fatal for the whole run). -/

/-- Artifact bytes. -/
abbrev Bytes := List Nat

/-- A flat directory: file name to content, newest entry first. -/
def fsLookup : List (List Char × Bytes) → List Char → Option Bytes
  | [], _ => none
  | (name, bytes) :: rest, key => if name = key then some bytes else fsLookup rest key

/-- Writing (over)writes the named file. -/
def fsWrite (files : List (List Char × Bytes)) (name : List Char) (bytes : Bytes) :
    List (List Char × Bytes) :=
  (name, bytes) :: files

/-- The two directories `prepare_tikz_assets` touches per block: the cache
(`tikz-cache/`) and the per-run output tree. -/
structure TikzFsState where
  cache : List (List Char × Bytes)
  dest : List (List Char × Bytes)
deriving DecidableEq

/-- Outcomes of the external compile paths: `compile_block`
(`tikz.rs:100-137`, Tectonic + Pdfium) and `build_error_artifact`
(`tikz.rs:248-268`) for a given failure message. -/
structure TikzEnv where
  compile_block : TikzBlockMeta → Except (List Char) Bytes
  build_error_artifact : List Char → Except (List Char) Bytes

/-- The cache file name `{key}.{ext}` (`tikz.rs:45`). -/
def cacheFileName (block : TikzBlockMeta) : List Char :=
  cache_key block ++ '.' :: block.asset_extension

/-- The anyhow context attached when the fallback itself fails
(`tikz.rs:60-65`). -/
def fallbackContextMsg (block : TikzBlockMeta) (inner : List Char) : List Char :=
  ("failed to create fallback artifact for TikZ block ".data) ++ block.id ++ (": ".data) ++ inner

/-- One iteration of the block loop (`tikz.rs:43-80`): ensure a cache entry —
compiling and, on failure, building the fallback artifact, whose own failure
aborts with an error (`?` on the `with_context` result) — then copy the entry
to the block's output path. -/
def processBlock (env : TikzEnv) (st : TikzFsState) (block : TikzBlockMeta) :
    Except (List Char) TikzFsState :=
  let cache_file := cacheFileName block
  let ensured : Except (List Char) TikzFsState :=
    match fsLookup st.cache cache_file with
    | some _ => Except.ok st
    | none =>
      match env.compile_block block with
      | Except.ok bytes => Except.ok { st with cache := fsWrite st.cache cache_file bytes }
      | Except.error err =>
        match env.build_error_artifact err with
        | Except.ok fallback =>
          Except.ok { st with cache := fsWrite st.cache cache_file fallback }
        | Except.error e => Except.error (fallbackContextMsg block e)
  match ensured with
  | Except.error e => Except.error e
  | Except.ok st' =>
    match fsLookup st'.cache cache_file with
    | some bytes => Except.ok { st' with dest := fsWrite st'.dest block.asset_path bytes }
    | none => Except.ok st'

/-- Rust `prepare_tikz_assets` (`tikz.rs:21-98`): the block loop; an error return
carries the filesystem state reached so far (Rust's early `return Err`
leaves prior writes in place). The stale-file sweep of the output directory
(`tikz.rs:82-95`) happens after the loop and does not affect which block
artifacts exist, so it is not modelled. -/
def prepare_tikz_assets (env : TikzEnv) : List TikzBlockMeta → TikzFsState →
    TikzFsState × Option (List Char)
  | [], st => (st, none)
  | block :: rest, st =>
    match processBlock env st block with
    | Except.ok st' => prepare_tikz_assets env rest st'
    | Except.error e => (st, e)

/-- C2 amended. If compiling a block fails and the fallback for it also
fails, `prepare_tikz_assets` aborts the whole batch at that block: it
returns the context error immediately, the failing block's artifact remains
absent, and NO remaining sibling block is processed (the state is returned
untouched). -/
theorem prepare_tikz_assets_fallback_aborts_batch (env : TikzEnv) (st : TikzFsState)
    (block : TikzBlockMeta) (rest : List TikzBlockMeta) (msg e : List Char)
    (hmiss : fsLookup st.cache (cacheFileName block) = none)
    (hcompile : env.compile_block block = Except.error msg)
    (hfallback : env.build_error_artifact msg = Except.error e) :
    prepare_tikz_assets env (block :: rest) st
      = (st, some (fallbackContextMsg block e)) := by
  rw [prepare_tikz_assets]
  have hproc : processBlock env st block = Except.error (fallbackContextMsg block e) := by
    unfold processBlock
    dsimp only
    simp only [hmiss, hcompile, hfallback]
  rw [hproc]

/-- A block whose compilation fails in the counterexample environment. -/
def blockBadC2 : TikzBlockMeta :=
  { id := ("one".data), diagram := ("\\bad".data), scale := none, preamble := none,
    format := none, asset_extension := ("png".data), asset_path := ("tikz/one.png".data) }

/-- A sibling block that would compile fine. -/
def blockGoodC2 : TikzBlockMeta :=
  { id := ("two".data), diagram := ("\\draw (0,0);".data), scale := none, preamble := none,
    format := none, asset_extension := ("png".data), asset_path := ("tikz/two.png".data) }

/-- An environment where `blockBadC2` fails to compile, every fallback build
fails, and every other block compiles. -/
def envC2 : TikzEnv :=
  { compile_block := fun b =>
      if b.id = blockBadC2.id then Except.error ("Tectonic failed".data) else Except.ok [1],
    build_error_artifact := fun _ => Except.error ("fallback failed".data) }

/-- C2 counterexample. With the failing first block, the batch aborts: the
call returns an error and the second block — which would have compiled — is
never processed; its artifact is absent from the returned state, refuting
"processing of the remaining sibling blocks still continues". -/
theorem prepare_tikz_assets_fallback_abort_cex :
    prepare_tikz_assets envC2 [blockBadC2, blockGoodC2] ⟨[], []⟩
        = (⟨[], []⟩, some (fallbackContextMsg blockBadC2 ("fallback failed".data)))
    ∧ fsLookup (prepare_tikz_assets envC2 [blockBadC2, blockGoodC2] ⟨[], []⟩).1.cache
        (cacheFileName blockGoodC2) = none := by
  exact ⟨rfl, rfl⟩

/-- Witness for `prepare_tikz_assets_fallback_aborts_batch` at a second
concrete state and environment. -/
theorem prepare_tikz_assets_fallback_witness :
    prepare_tikz_assets envC2 [blockBadC2] ⟨[], [(("old.png".data), [7])]⟩
      = (⟨[], [(("old.png".data), [7])]⟩,
         some (fallbackContextMsg blockBadC2 ("fallback failed".data))) :=
  prepare_tikz_assets_fallback_aborts_batch envC2 _ blockBadC2 []
    ("Tectonic failed".data) ("fallback failed".data) rfl rfl rfl

/-! ## C7: the source-map merge and the query-result walker

(`preprocessor.rs:6-31, 538-556, 575-701`.) `serde_json::Value` is modelled
by `JsonVal`; JSON numbers (`f64`/`u64` in Rust) are carried exactly as
rationals — the code only selects and copies them, never computes — and
objects are association lists in serde_json's (BTreeMap, key-sorted)
iteration order. -/

inductive JsonVal where
  | null
  | bool (b : Bool)
  | num (q : Rat)
  | str (s : List Char)
  | arr (elems : List JsonVal)
  | obj (fields : List (List Char × JsonVal))

/-- Rust `serde_json::Map::get`. -/
def jsonLookup : List (List Char × JsonVal) → List Char → Option JsonVal
  | [], _ => none
  | (k, v) :: rest, key => if k = key then some v else jsonLookup rest key

/-- Rust `Value::as_str`. -/
def jsonAsStr : JsonVal → Option (List Char)
  | .str s => some s
  | _ => none

/-- A looked-up member is structurally smaller than the field list. -/
theorem jsonLookup_sizeOf_lt : ∀ (l : List (List Char × JsonVal)) (key : List Char)
    (v : JsonVal), jsonLookup l key = some v → sizeOf v < sizeOf l := by
  intro l
  induction l with
  | nil => intro key v h; simp [jsonLookup] at h
  | cons p rest ih =>
    intro key v h
    obtain ⟨k, w⟩ := p
    rw [jsonLookup] at h
    split_ifs at h with hk
    · cases h
      simp only [List.cons.sizeOf_spec, Prod.mk.sizeOf_spec]
      omega
    · have := ih key v h
      simp only [List.cons.sizeOf_spec]
      omega

/-- The wrapper keys under which a label may be nested
(`preprocessor.rs:603`). -/
def labelWrapperKeys : List (List Char) :=
  [("value".data), ("target".data), ("node".data), ("fields".data)]

mutual

/-- Rust `find_label` (`preprocessor.rs:597-615`): a direct string `label` field
wins; otherwise recurse into the wrapper keys in order; arrays search their
elements left to right. -/
def find_label : JsonVal → Option (List Char)
  | .obj fields =>
    (match (jsonLookup fields ("label".data)).bind jsonAsStr with
     | some s => some s
     | none => findLabelKeys fields labelWrapperKeys)
  | .arr xs => findLabelList xs
  | _ => none
termination_by v => (sizeOf v, 0)
decreasing_by
  · simp only [JsonVal.obj.sizeOf_spec]
    exact Prod.Lex.left _ _ (by omega)
  · simp only [JsonVal.arr.sizeOf_spec]
    exact Prod.Lex.left _ _ (by omega)

/-- The wrapper-key loop of `find_label`. -/
def findLabelKeys (fields : List (List Char × JsonVal)) : List (List Char) →
    Option (List Char)
  | [] => none
  | key :: restKeys =>
    match h : jsonLookup fields key with
    | some child =>
      (match find_label child with
       | some found => some found
       | none => findLabelKeys fields restKeys)
    | none => findLabelKeys fields restKeys
termination_by keys => (sizeOf fields, keys.length)
decreasing_by
  all_goals first
    | exact Prod.Lex.left _ _ (jsonLookup_sizeOf_lt _ _ _ (by assumption))
    | exact Prod.Lex.right _ (by simp only [List.length_cons]; omega)

/-- Rust `arr.iter().find_map(find_label)`. -/
def findLabelList : List JsonVal → Option (List Char)
  | [] => none
  | x :: xs =>
    (match find_label x with
     | some found => some found
     | none => findLabelList xs)
termination_by xs => (sizeOf xs, 0)
decreasing_by
  · simp only [List.cons.sizeOf_spec]
    exact Prod.Lex.left _ _ (by omega)
  · simp only [List.cons.sizeOf_spec]
    exact Prod.Lex.left _ _ (by omega)

end

/-- A plain decimal literal as an exact rational (models
`str::parse::<f64>` on the decimal inputs the query results carry). -/
def parseRatDec (s : List Char) : Option Rat :=
  let sd := f32SignSplit s
  let intPart := sd.2.takeWhile isAsciiDigit
  match sd.2.drop intPart.length with
  | [] =>
    if intPart = [] then none
    else some ((if sd.1 then -1 else 1) * (digitsToNat intPart : Rat))
  | '.' :: tl =>
    let fracPart := tl.takeWhile isAsciiDigit
    if tl.drop fracPart.length ≠ [] then none
    else if intPart = [] && fracPart = [] then none
    else
      some ((if sd.1 then -1 else 1) *
        ((digitsToNat intPart : Rat) + (digitsToNat fracPart : Rat) / (10 ^ fracPart.length)))
  | _ => none

/-- Rust `v.as_f64().or_else(|| v.as_str().and_then(|s| s.parse::<f64>().ok()))`
(`preprocessor.rs:666-670`). -/
def jsonToNum (v : JsonVal) : Option Rat :=
  match v with
  | .num q => some q
  | .str s => parseRatDec s
  | _ => none

/-- All-digit natural literal (models `str::parse::<u64>`). -/
def parseNatDec (s : List Char) : Option Nat :=
  if s ≠ [] ∧ s.all isAsciiDigit then some (digitsToNat s) else none

/-- Rust `p.as_u64().or_else(|| p.as_str().and_then(|s| s.parse::<u64>().ok()))`
(`preprocessor.rs:652-655`): `as_u64` yields only non-negative integers. -/
def jsonToU64 (v : JsonVal) : Option Nat :=
  match v with
  | .num q => if q.den = 1 ∧ 0 ≤ q.num then some q.num.toNat else none
  | .str s => parseNatDec s
  | _ => none

/-- Rust `extract_page_xy` (`preprocessor.rs:646-701`): the page defaults to 1
when absent; a `position`/`point`/`pos` object yields its `x`/`y` (each
defaulting to 0); otherwise a `rect` array of length ≥ 2 yields its first two
numbers; else nothing. -/
def extract_page_xy (v : JsonVal) : Option (Nat × Rat × Rat) :=
  match v with
  | .obj fields =>
    let page :=
      match (jsonLookup fields ("page".data)).bind jsonToU64 with
      | some p => p
      | none => 1
    let posVal :=
      match jsonLookup fields ("position".data) with
      | some p => some p
      | none =>
        match jsonLookup fields ("point".data) with
        | some p => some p
        | none => jsonLookup fields ("pos".data)
    match posVal with
    | some (JsonVal.obj posObj) =>
      let x :=
        match (jsonLookup posObj ("x".data)).bind jsonToNum with
        | some q => q
        | none => 0
      let y :=
        match (jsonLookup posObj ("y".data)).bind jsonToNum with
        | some q => q
        | none => 0
      some (page, x, y)
    | _ =>
      match jsonLookup fields ("rect".data) with
      | some (JsonVal.arr coords) =>
        if 2 ≤ coords.length then
          let x :=
            match jsonToNum (coords.getD 0 JsonVal.null) with
            | some q => q
            | none => 0
          let y :=
            match jsonToNum (coords.getD 1 JsonVal.null) with
            | some q => q
            | none => 0
          some (page, x, y)
        else none
      | _ => none
  | _ => none

mutual

/-- Rust `find_location` (`preprocessor.rs:620-644`): a `location` member that
extracts wins; then the object itself; then its members in iteration order;
arrays search left to right. -/
def find_location : JsonVal → Option (Nat × Rat × Rat)
  | .obj fields =>
    (match
      (match jsonLookup fields ("location".data) with
       | some loc => extract_page_xy loc
       | none => none) with
     | some res => some res
     | none =>
       (match extract_page_xy (JsonVal.obj fields) with
        | some res => some res
        | none => findLocationFields fields))
  | .arr xs => findLocationList xs
  | _ => none
termination_by v => sizeOf v
decreasing_by
  · simp only [JsonVal.obj.sizeOf_spec]; omega
  · simp only [JsonVal.arr.sizeOf_spec]; omega

/-- Rust `for (_k, v) in map.iter()` of `find_location`. -/
def findLocationFields : List (List Char × JsonVal) → Option (Nat × Rat × Rat)
  | [] => none
  | (_, v) :: rest =>
    (match find_location v with
     | some found => some found
     | none => findLocationFields rest)
termination_by l => sizeOf l
decreasing_by
  all_goals simp only [List.cons.sizeOf_spec, Prod.mk.sizeOf_spec] <;> omega

/-- Rust `arr.iter().find_map(find_location)`. -/
def findLocationList : List JsonVal → Option (Nat × Rat × Rat)
  | [] => none
  | x :: xs =>
    (match find_location x with
     | some found => some found
     | none => findLocationList xs)
termination_by l => sizeOf l
decreasing_by
  all_goals simp only [List.cons.sizeOf_spec] <;> omega

end

/-- Rust `PdfPosition` (`preprocessor.rs:13-18`); coordinates carried exactly. -/
structure PdfPosition where
  page : Nat
  x : Rat
  y : Rat
deriving DecidableEq

/-- Rust `EditorPosition` (`preprocessor.rs:6-11`). -/
structure EditorPosition where
  offset : Nat
  line : Nat
  column : Nat
deriving DecidableEq

/-- Rust `AnchorEntry` (`preprocessor.rs:20-26`). -/
structure AnchorEntry where
  id : List Char
  editor : EditorPosition
  pdf : Option PdfPosition
deriving DecidableEq

/-- Rust `SourceMapPayload` (`preprocessor.rs:28-31`). -/
structure SourceMapPayload where
  anchors : List AnchorEntry
deriving DecidableEq

/-- Rust `HashMap::get` on the positions map. -/
def posLookup : List (List Char × PdfPosition) → List Char → Option PdfPosition
  | [], _ => none
  | (k, v) :: rest, key => if k = key then some v else posLookup rest key

/-- Rust `HashMap::insert`: overwrite any previous binding. -/
def posInsert (m : List (List Char × PdfPosition)) (k : List Char) (v : PdfPosition) :
    List (List Char × PdfPosition) :=
  (k, v) :: m.filter (fun p => !(p.1 == k))

/-- Rust `pdf_positions_from_query` (`preprocessor.rs:575-595`) after JSON
parsing: walk the top-level array, keep entries whose label starts with
`tf-` and yields a location. A non-array root yields the empty map. -/
def pdf_positions_from_query (root : JsonVal) : List (List Char × PdfPosition) :=
  match root with
  | .arr entries =>
    entries.foldl
      (fun m entry =>
        match find_label entry with
        | some label =>
          if (("tf-".data)).isPrefixOf label then
            match find_location entry with
            | some pxy => posInsert m label ⟨pxy.1, pxy.2.1, pxy.2.2⟩
            | none => m
          else m
        | none => m)
      []
  | _ => []

/-- Rust `attach_pdf_positions` (`preprocessor.rs:538-556`): one entry per anchor,
in order, the editor position copied verbatim and the rendered position
looked up by id — absent ids simply stay `none`; the merge is total. -/
def attach_pdf_positions (anchors : List AnchorMeta)
    (positions : List (List Char × PdfPosition)) : SourceMapPayload :=
  ⟨anchors.map (fun a => ⟨a.id, ⟨a.offset, a.line, a.column⟩, posLookup positions a.id⟩)⟩

/-- C7. The merge yields exactly one entry per anchor, in the same order,
with the editor position copied unchanged and the rendered position equal to
the map lookup of the anchor's id — `none` (unset, not an error) when the id
has no match; and a location object carrying a `position` but no explicit
`page` extracts with the default page 1. -/
theorem attach_pdf_positions_merge (anchors : List AnchorMeta)
    (positions : List (List Char × PdfPosition))
    (fields posObj : List (List Char × JsonVal)) (x y : Rat)
    (hpage : jsonLookup fields ("page".data) = none)
    (hpos : jsonLookup fields ("position".data) = some (JsonVal.obj posObj))
    (hx : jsonLookup posObj ("x".data) = some (JsonVal.num x))
    (hy : jsonLookup posObj ("y".data) = some (JsonVal.num y)) :
    (attach_pdf_positions anchors positions).anchors.length = anchors.length
    ∧ (∀ i (hi : i < anchors.length),
        (attach_pdf_positions anchors positions).anchors.get
            ⟨i, by simpa [attach_pdf_positions] using hi⟩
          = ⟨(anchors.get ⟨i, hi⟩).id,
             ⟨(anchors.get ⟨i, hi⟩).offset, (anchors.get ⟨i, hi⟩).line,
              (anchors.get ⟨i, hi⟩).column⟩,
             posLookup positions (anchors.get ⟨i, hi⟩).id⟩)
    ∧ extract_page_xy (JsonVal.obj fields) = some (1, x, y) := by
  refine ⟨by simp [attach_pdf_positions], ?_, ?_⟩
  · intro i hi
    simp [attach_pdf_positions]
  · unfold extract_page_xy
    dsimp only
    simp only [hpage, hpos, hx, hy, Option.bind, jsonToNum]

/-- Witness for `attach_pdf_positions_merge`: one anchor with no match in an
empty positions map, and a concrete pageless location object. -/
theorem attach_pdf_positions_merge_witness :
    (attach_pdf_positions [docStartAnchor] []).anchors.length = [docStartAnchor].length
    ∧ (∀ i (hi : i < [docStartAnchor].length),
        (attach_pdf_positions [docStartAnchor] []).anchors.get
            ⟨i, by simpa [attach_pdf_positions] using hi⟩
          = ⟨([docStartAnchor].get ⟨i, hi⟩).id,
             ⟨([docStartAnchor].get ⟨i, hi⟩).offset, ([docStartAnchor].get ⟨i, hi⟩).line,
              ([docStartAnchor].get ⟨i, hi⟩).column⟩,
             posLookup [] ([docStartAnchor].get ⟨i, hi⟩).id⟩)
    ∧ extract_page_xy (JsonVal.obj
        [(("position".data), JsonVal.obj
            [(("x".data), JsonVal.num 3), (("y".data), JsonVal.num 7)])])
        = some (1, 3, 7) :=
  attach_pdf_positions_merge [docStartAnchor] []
    [(("position".data), JsonVal.obj [(("x".data), JsonVal.num 3), (("y".data), JsonVal.num 7)])]
    [(("x".data), JsonVal.num 3), (("y".data), JsonVal.num 7)] 3 7 rfl rfl rfl rfl
